import Mathlib

/-!
Shallow embedding of the within-camera tracking core of the repository:
src/backend/app/cv/byte_tracker.py (Detection, Track, ByteTracker) and
src/backend/app/cv/tracklet_generator.py (TrackletGenerator).

Python float arithmetic is modelled exactly over the rationals.  Python
object identity (Track instances are mutated in place and may be shared
between the tracker's lists) is modelled with an explicit object store:
the tracker keeps a heap of Track values and its lists hold indices
(references) into that heap.
-/

namespace Wandr

/-- Axis-aligned bounding box, fields as in the Python arrays [x1, y1, x2, y2]. -/
structure BBox where
  x1 : ℚ
  y1 : ℚ
  x2 : ℚ
  y2 : ℚ
deriving DecidableEq, Repr

/-- Embeds byte_tracker.py Detection: bbox, confidence, frame_id. -/
structure Detection where
  bbox : BBox
  confidence : ℚ
  frame_id : Nat
deriving DecidableEq, Repr

/-- Embeds Detection.area: max(0, (x2 - x1) * (y2 - y1)). -/
def Detection.area (d : Detection) : ℚ :=
  max 0 ((d.bbox.x2 - d.bbox.x1) * (d.bbox.y2 - d.bbox.y1))

/-- Embeds byte_tracker.py TrackState (NEW, TRACKED, LOST, REMOVED). -/
inductive TrackState where
  | NEW
  | TRACKED
  | LOST
  | REMOVED
deriving DecidableEq, Repr

/-- Embeds byte_tracker.py Track.  History lists are kept in full;
the Python dataclass fields map one to one. -/
structure Track where
  track_id : Nat
  bbox : BBox
  confidence : ℚ
  frame_id : Nat
  state : TrackState
  age : Nat
  hits : Nat
  time_since_update : Nat
  bbox_history : List BBox
  confidence_history : List ℚ
  frame_history : List Nat
deriving DecidableEq, Repr

/-- Track construction as performed by the dataclass constructor plus
Track.__post_init__: metadata defaults (state NEW, age 0, hits 0,
time_since_update 0) and the three histories seeded with the initial
observation. -/
def mkTrack (track_id : Nat) (bbox : BBox) (confidence : ℚ) (frame_id : Nat) : Track :=
  { track_id := track_id
    bbox := bbox
    confidence := confidence
    frame_id := frame_id
    state := TrackState.NEW
    age := 0
    hits := 0
    time_since_update := 0
    bbox_history := [bbox]
    confidence_history := [confidence]
    frame_history := [frame_id] }

/-- Embeds Track.update(detection): copy the detection's fields, increment
hits, reset time_since_update, append to the three histories popping the
oldest entry when the bbox history exceeds 30, then apply the state rule
(NEW with hits >= 3 promotes to TRACKED; LOST returns to TRACKED). -/
def Track.update (t : Track) (d : Detection) : Track :=
  let hits' := t.hits + 1
  let bh := t.bbox_history ++ [d.bbox]
  let ch := t.confidence_history ++ [d.confidence]
  let fh := t.frame_history ++ [d.frame_id]
  let pop := bh.length > 30
  let bh' := if pop then bh.tail else bh
  let ch' := if pop then ch.tail else ch
  let fh' := if pop then fh.tail else fh
  let state' :=
    if t.state = TrackState.NEW ∧ hits' ≥ 3 then TrackState.TRACKED
    else if t.state = TrackState.LOST then TrackState.TRACKED
    else t.state
  { t with
    bbox := d.bbox
    confidence := d.confidence
    frame_id := d.frame_id
    hits := hits'
    time_since_update := 0
    bbox_history := bh'
    confidence_history := ch'
    frame_history := fh'
    state := state' }

/-- Embeds Track.mark_missed: increment time_since_update and age, then
force REMOVED when time_since_update > 10, else LOST when > 3 (both
bounds are hard-coded in the source). -/
def Track.mark_missed (t : Track) : Track :=
  let tsu := t.time_since_update + 1
  let state' :=
    if tsu > 10 then TrackState.REMOVED
    else if tsu > 3 then TrackState.LOST
    else t.state
  { t with time_since_update := tsu, age := t.age + 1, state := state' }

/-- Embeds Track.is_active: state in [NEW, TRACKED]. -/
def Track.is_active (t : Track) : Bool :=
  t.state = TrackState.NEW ∨ t.state = TrackState.TRACKED

/-- Embeds Track.average_confidence: mean of confidence_history, 0 when empty. -/
def Track.average_confidence (t : Track) : ℚ :=
  if t.confidence_history = [] then 0
  else t.confidence_history.sum / t.confidence_history.length

/-- Inner helper of ByteTracker._iou: the raw area of a box. -/
def boxArea (b : BBox) : ℚ := (b.x2 - b.x1) * (b.y2 - b.y1)

/-- Intersection area term of ByteTracker._iou:
(x_right - x_left) * (y_bottom - y_top) with
x_left = max(x1_1, x1_2), x_right = min(x2_1, x2_2) and likewise for y. -/
def interArea (b1 b2 : BBox) : ℚ :=
  (min b1.x2 b2.x2 - max b1.x1 b2.x1) * (min b1.y2 b2.y2 - max b1.y1 b2.y1)

/-- Embeds the static method ByteTracker._iou over exact rationals:
intersection over union with the early return 0 when the boxes do not
overlap and when the union is zero. -/
def iou (b1 b2 : BBox) : ℚ :=
  if min b1.x2 b2.x2 < max b1.x1 b2.x1 ∨ min b1.y2 b2.y2 < max b1.y1 b2.y1 then 0
  else if boxArea b1 + boxArea b2 - interArea b1 b2 = 0 then 0
  else interArea b1 b2 / (boxArea b1 + boxArea b2 - interArea b1 b2)

/-- A bounding box with positive width and height, as required of
detections by the spec (x2 > x1, y2 > y1). -/
def BBox.valid (b : BBox) : Prop := b.x1 < b.x2 ∧ b.y1 < b.y2

/-- Two boxes with disjoint interiors (separated along one axis). -/
def BBox.separated (b1 b2 : BBox) : Prop :=
  b1.x2 ≤ b2.x1 ∨ b2.x2 ≤ b1.x1 ∨ b1.y2 ≤ b2.y1 ∨ b2.y2 ≤ b1.y1

/-- Box b1 fully contains box b2. -/
def BBox.contains (b1 b2 : BBox) : Prop :=
  b1.x1 ≤ b2.x1 ∧ b1.y1 ≤ b2.y1 ∧ b2.x2 ≤ b1.x2 ∧ b2.y2 ≤ b1.y2

/-- C6 theorem, part of the IoU development: the four properties claimed of
ByteTracker._iou. -/
theorem iou_properties :
    (∀ b : BBox, b.valid → iou b b = 1) ∧
    (∀ b1 b2 : BBox, b1.valid → b2.valid → b1.separated b2 → iou b1 b2 = 0) ∧
    (∀ b1 b2 : BBox, iou b1 b2 = iou b2 b1) ∧
    (∀ b1 b2 : BBox, b1.valid → b2.valid → b1.contains b2 →
      iou b1 b2 = boxArea b2 / boxArea b1) := by
  refine ⟨?_, ?_, ?_, ?_⟩
  · intro b hb
    obtain ⟨hx, hy⟩ := hb
    have hI : interArea b b = boxArea b := by
      unfold interArea boxArea
      rw [min_self, min_self, max_self, max_self]
    have hA : (0:ℚ) < boxArea b := by
      unfold boxArea
      nlinarith
    unfold iou
    rw [hI]
    split_ifs with h1 h2
    · exfalso
      rcases h1 with h | h
      · rw [min_self, max_self] at h
        exact absurd h (not_lt.2 (le_of_lt hx))
      · rw [min_self, max_self] at h
        exact absurd h (not_lt.2 (le_of_lt hy))
    · exfalso
      linarith
    · have h3 : boxArea b + boxArea b - boxArea b = boxArea b := by ring
      rw [h3, div_self (ne_of_gt hA)]
  · intro b1 b2 h1 h2 hsep
    unfold iou
    split_ifs with hc hu
    · rfl
    · rfl
    · push_neg at hc
      obtain ⟨hcx, hcy⟩ := hc
      have hzero : interArea b1 b2 = 0 := by
        unfold interArea
        rcases hsep with h | h | h | h
        · have hle : min b1.x2 b2.x2 ≤ max b1.x1 b2.x1 :=
            le_trans (min_le_left _ _) (le_trans h (le_max_right _ _))
          have heq : min b1.x2 b2.x2 - max b1.x1 b2.x1 = 0 := by linarith
          rw [heq, zero_mul]
        · have hle : min b1.x2 b2.x2 ≤ max b1.x1 b2.x1 :=
            le_trans (min_le_right _ _) (le_trans h (le_max_left _ _))
          have heq : min b1.x2 b2.x2 - max b1.x1 b2.x1 = 0 := by linarith
          rw [heq, zero_mul]
        · have hle : min b1.y2 b2.y2 ≤ max b1.y1 b2.y1 :=
            le_trans (min_le_left _ _) (le_trans h (le_max_right _ _))
          have heq : min b1.y2 b2.y2 - max b1.y1 b2.y1 = 0 := by linarith
          rw [heq, mul_zero]
        · have hle : min b1.y2 b2.y2 ≤ max b1.y1 b2.y1 :=
            le_trans (min_le_right _ _) (le_trans h (le_max_left _ _))
          have heq : min b1.y2 b2.y2 - max b1.y1 b2.y1 = 0 := by linarith
          rw [heq, mul_zero]
      rw [hzero, zero_div]
  · intro b1 b2
    unfold iou interArea boxArea
    rw [min_comm b1.x2 b2.x2, min_comm b1.y2 b2.y2, max_comm b1.x1 b2.x1,
        max_comm b1.y1 b2.y1,
        add_comm ((b1.x2 - b1.x1) * (b1.y2 - b1.y1)) ((b2.x2 - b2.x1) * (b2.y2 - b2.y1))]
  · intro b1 b2 h1 h2 hcon
    obtain ⟨ha, hb', hc', hd⟩ := hcon
    obtain ⟨hx1, hy1⟩ := h1
    obtain ⟨hx2, hy2⟩ := h2
    have hIx : min b1.x2 b2.x2 = b2.x2 := min_eq_right hc'
    have hIy : min b1.y2 b2.y2 = b2.y2 := min_eq_right hd
    have hMx : max b1.x1 b2.x1 = b2.x1 := max_eq_right ha
    have hMy : max b1.y1 b2.y1 = b2.y1 := max_eq_right hb'
    have hI : interArea b1 b2 = boxArea b2 := by
      unfold interArea boxArea
      rw [hIx, hIy, hMx, hMy]
    have hA1 : (0:ℚ) < boxArea b1 := by
      unfold boxArea
      nlinarith
    have hU : boxArea b1 + boxArea b2 - interArea b1 b2 = boxArea b1 := by
      rw [hI]; ring
    unfold iou
    rw [hU, hI]
    split_ifs with hcnd hu
    · exfalso
      rcases hcnd with h | h
      · rw [hIx, hMx] at h
        exact absurd h (not_lt.2 (le_of_lt hx2))
      · rw [hIy, hMy] at h
        exact absurd h (not_lt.2 (le_of_lt hy2))
    · exact absurd hu (ne_of_gt hA1)
    · rfl

/-- Concrete box for the C6 witness. -/
def wBoxA : BBox := ⟨0, 0, 10, 10⟩

/-- Concrete contained box for the C6 witness. -/
def wBoxB : BBox := ⟨2, 2, 4, 4⟩

/-- Concrete separated box for the C6 witness. -/
def wBoxC : BBox := ⟨20, 20, 30, 30⟩

/-- C6 witness: the IoU properties instantiated at concrete boxes. -/
theorem iou_properties_witness :
    iou wBoxA wBoxA = 1 ∧ iou wBoxA wBoxC = 0 ∧ iou wBoxA wBoxB = iou wBoxB wBoxA ∧
    iou wBoxA wBoxB = boxArea wBoxB / boxArea wBoxA :=
  ⟨iou_properties.1 wBoxA ⟨by decide, by decide⟩,
   iou_properties.2.1 wBoxA wBoxC ⟨by decide, by decide⟩ ⟨by decide, by decide⟩
     (Or.inl (by decide)),
   iou_properties.2.2.1 wBoxA wBoxB,
   iou_properties.2.2.2 wBoxA wBoxB ⟨by decide, by decide⟩ ⟨by decide, by decide⟩
     ⟨by decide, by decide, by decide, by decide⟩⟩

/-- Appending to a nonempty list commutes with tail. -/
lemma tail_append_singleton {α : Type} (l : List α) (x : α) (h : l ≠ []) :
    (l ++ [x]).tail = l.tail ++ [x] := by
  cases l with
  | nil => exact absurd rfl h
  | cons a l' => rfl

/-- One Track.update step preserves the suffix-of-the-full-stream shape of
the three history fields. -/
lemma update_hist_step (t : Track) (d : Detection) (B : List BBox) (C : List ℚ)
    (F : List Nat)
    (hB : t.bbox_history = B.drop (B.length - 30))
    (hC : t.confidence_history = C.drop (C.length - 30))
    (hF : t.frame_history = F.drop (F.length - 30))
    (hCB : C.length = B.length) (hFB : F.length = B.length) :
    (t.update d).bbox_history =
      (B ++ [d.bbox]).drop ((B ++ [d.bbox]).length - 30) ∧
    (t.update d).confidence_history =
      (C ++ [d.confidence]).drop ((C ++ [d.confidence]).length - 30) ∧
    (t.update d).frame_history =
      (F ++ [d.frame_id]).drop ((F ++ [d.frame_id]).length - 30) := by
  have hlenB : t.bbox_history.length = B.length - (B.length - 30) := by
    rw [hB, List.length_drop]
  have hBlen : (B ++ [d.bbox]).length = B.length + 1 := by simp
  have hClen : (C ++ [d.confidence]).length = C.length + 1 := by simp
  have hFlen : (F ++ [d.frame_id]).length = F.length + 1 := by simp
  simp only [Track.update]
  rw [hB, hC, hF, hBlen, hClen, hFlen]
  by_cases h30 : B.length < 30
  · have h0 : B.length - 30 = 0 := by omega
    have h0C : C.length - 30 = 0 := by omega
    have h0F : F.length - 30 = 0 := by omega
    have hcond : ¬ ((B.drop (B.length - 30) ++ [d.bbox]).length > 30) := by
      rw [List.length_append, List.length_drop, h0]
      simp
      omega
    rw [if_neg hcond, if_neg hcond, if_neg hcond]
    rw [h0, h0C, h0F, List.drop_zero, List.drop_zero, List.drop_zero]
    have hB1 : B.length + 1 - 30 = 0 := by omega
    have hC1 : C.length + 1 - 30 = 0 := by omega
    have hF1 : F.length + 1 - 30 = 0 := by omega
    rw [hB1, hC1, hF1, List.drop_zero, List.drop_zero, List.drop_zero]
    exact ⟨rfl, rfl, rfl⟩
  · push_neg at h30
    have hlen30 : t.bbox_history.length = 30 := by omega
    have hlenC : (C.drop (C.length - 30)).length = 30 := by
      rw [List.length_drop]; omega
    have hlenF : (F.drop (F.length - 30)).length = 30 := by
      rw [List.length_drop]; omega
    have hlenB' : (B.drop (B.length - 30)).length = 30 := by
      rw [List.length_drop]; omega
    have hcond : (B.drop (B.length - 30) ++ [d.bbox]).length > 30 := by
      rw [List.length_append, hlenB']
      simp
    rw [if_pos hcond, if_pos hcond, if_pos hcond]
    have hneB : B.drop (B.length - 30) ≠ [] := by
      intro hh
      rw [hh] at hlenB'
      simp at hlenB'
    have hneC : C.drop (C.length - 30) ≠ [] := by
      intro hh
      rw [hh] at hlenC
      simp at hlenC
    have hneF : F.drop (F.length - 30) ≠ [] := by
      intro hh
      rw [hh] at hlenF
      simp at hlenF
    rw [tail_append_singleton _ _ hneB, tail_append_singleton _ _ hneC,
        tail_append_singleton _ _ hneF]
    rw [List.tail_drop, List.tail_drop, List.tail_drop]
    have hBk : B.length + 1 - 30 = (B.length - 30) + 1 := by omega
    have hCk : C.length + 1 - 30 = (C.length - 30) + 1 := by omega
    have hFk : F.length + 1 - 30 = (F.length - 30) + 1 := by omega
    rw [hBk, hCk, hFk]
    rw [List.drop_append_of_le_length (by omega),
        List.drop_append_of_le_length (by omega),
        List.drop_append_of_le_length (by omega)]
    exact ⟨rfl, rfl, rfl⟩

/-- Folding Track.update over a detection list keeps each history equal to
the 30-suffix of the corresponding full observation stream. -/
lemma foldl_update_hist (ds : List Detection) :
    ∀ (t : Track) (B : List BBox) (C : List ℚ) (F : List Nat),
    t.bbox_history = B.drop (B.length - 30) →
    t.confidence_history = C.drop (C.length - 30) →
    t.frame_history = F.drop (F.length - 30) →
    C.length = B.length → F.length = B.length →
    (ds.foldl Track.update t).bbox_history =
      (B ++ ds.map (fun d => d.bbox)).drop
        ((B ++ ds.map (fun d => d.bbox)).length - 30) ∧
    (ds.foldl Track.update t).confidence_history =
      (C ++ ds.map (fun d => d.confidence)).drop
        ((C ++ ds.map (fun d => d.confidence)).length - 30) ∧
    (ds.foldl Track.update t).frame_history =
      (F ++ ds.map (fun d => d.frame_id)).drop
        ((F ++ ds.map (fun d => d.frame_id)).length - 30) := by
  induction ds with
  | nil =>
    intro t B C F hB hC hF hCB hFB
    simpa using ⟨hB, hC, hF⟩
  | cons d ds ih =>
    intro t B C F hB hC hF hCB hFB
    obtain ⟨h1, h2, h3⟩ := update_hist_step t d B C F hB hC hF hCB hFB
    have hCB' : (C ++ [d.confidence]).length = (B ++ [d.bbox]).length := by
      simp [hCB]
    have hFB' : (F ++ [d.frame_id]).length = (B ++ [d.bbox]).length := by
      simp [hFB]
    have := ih (t.update d) (B ++ [d.bbox]) (C ++ [d.confidence]) (F ++ [d.frame_id])
      h1 h2 h3 hCB' hFB'
    simpa [List.append_assoc] using this

/-- C7: after a Track is created and updated any number of times, its three
history lists are the 30-suffix of the full observation stream (so each
has length at most 30 and the oldest entries are evicted first). -/
theorem track_histories_bounded (id : Nat) (b : BBox) (c : ℚ) (f : Nat)
    (ds : List Detection) :
    (ds.foldl Track.update (mkTrack id b c f)).bbox_history.length ≤ 30 ∧
    (ds.foldl Track.update (mkTrack id b c f)).confidence_history.length ≤ 30 ∧
    (ds.foldl Track.update (mkTrack id b c f)).frame_history.length ≤ 30 ∧
    (ds.foldl Track.update (mkTrack id b c f)).bbox_history =
      (b :: ds.map (fun d => d.bbox)).drop
        ((b :: ds.map (fun d => d.bbox)).length - 30) ∧
    (ds.foldl Track.update (mkTrack id b c f)).confidence_history =
      (c :: ds.map (fun d => d.confidence)).drop
        ((c :: ds.map (fun d => d.confidence)).length - 30) ∧
    (ds.foldl Track.update (mkTrack id b c f)).frame_history =
      (f :: ds.map (fun d => d.frame_id)).drop
        ((f :: ds.map (fun d => d.frame_id)).length - 30) := by
  have h := foldl_update_hist ds (mkTrack id b c f) [b] [c] [f]
    (by simp [mkTrack]) (by simp [mkTrack]) (by simp [mkTrack]) (by simp) (by simp)
  simp only [List.singleton_append] at h
  obtain ⟨h1, h2, h3⟩ := h
  refine ⟨?_, ?_, ?_, h1, h2, h3⟩
  · rw [h1, List.length_drop]
    omega
  · rw [h2, List.length_drop]
    omega
  · rw [h3, List.length_drop]
    omega

/-- Default Track value used for out-of-range list reads in the model
(in-range by construction wherever the Python code indexes). -/
def dTrack : Track := mkTrack 0 ⟨0, 0, 0, 0⟩ 0 0

/-- Default Detection value used for out-of-range list reads in the model. -/
def dDet : Detection := ⟨⟨0, 0, 0, 0⟩, 0, 0⟩

/-- All ways to assign each row in the first list to a distinct column of
the second list, in order.  Used to model the Hungarian solver's search
space of complete assignments. -/
def injections : List Nat → List Nat → List (List (Nat × Nat))
  | [], _ => [[]]
  | r :: rs, cols =>
      cols.flatMap (fun c => (injections rs (cols.erase c)).map (fun a => (r, c) :: a))

/-- Total cost of an assignment. -/
def assignmentCost (cost : Nat → Nat → ℚ) (a : List (Nat × Nat)) : ℚ :=
  (a.map (fun p => cost p.1 p.2)).sum

/-- Model of scipy.optimize.linear_sum_assignment by its documented
contract: a minimum-total-cost complete assignment pairing min(m, n) rows
with distinct columns, found here by exhaustive search over all complete
assignments.  Only the properties guaranteed by the contract (row and
column indices are distinct and in range, and the cost is minimal) are
relied upon; scipy's tie-breaking among equally cheap assignments is
unspecified. -/
def linear_sum_assignment (cost : Nat → Nat → ℚ) (m n : Nat) : List (Nat × Nat) :=
  if m ≤ n then
    ((injections (List.range m) (List.range n)).argmin (assignmentCost cost)).getD []
  else
    (((injections (List.range n) (List.range m)).argmin
        (assignmentCost (fun i j => cost j i))).getD []).map (fun p => (p.2, p.1))

/-- Result of ByteTracker._match: accepted (track_idx, det_idx) pairs, the
unmatched detection indices, and the unmatched track indices, in the
order the Python function returns them. -/
structure MatchResult where
  matched : List (Nat × Nat)
  unmatched_dets : List Nat
  unmatched_tracks : List Nat
deriving DecidableEq, Repr

/-- Embeds the post-hoc filter loop of ByteTracker._match: walk the solver
pairs, accept a pair when its IoU reaches the threshold, and remove its
row and column from the unmatched lists (Python list.remove, i.e. first
occurrence). -/
def matchLoop (iouM : Nat → Nat → ℚ) (thresh : ℚ) :
    List (Nat × Nat) → List (Nat × Nat) → List Nat → List Nat → MatchResult
  | [], ms, umT, umD => ⟨ms, umD, umT⟩
  | (r, c) :: rest, ms, umT, umD =>
      if thresh ≤ iouM r c then
        matchLoop iouM thresh rest (ms ++ [(r, c)]) (umT.erase r) (umD.erase c)
      else
        matchLoop iouM thresh rest ms umT umD

/-- Embeds ByteTracker._match: early return when either side is empty,
otherwise build the IoU matrix, run the assignment solver on cost
1 - IoU, and filter the proposed pairs by the stage threshold. -/
def matchStage (tracks : List Track) (dets : List Detection) (thresh : ℚ) :
    MatchResult :=
  if tracks.isEmpty ∨ dets.isEmpty then
    ⟨[], List.range dets.length, List.range tracks.length⟩
  else
    let iouM := fun ti di => iou (tracks.getD ti dTrack).bbox (dets.getD di dDet).bbox
    let pairs := linear_sum_assignment (fun i j => 1 - iouM i j) tracks.length dets.length
    matchLoop iouM thresh pairs [] (List.range tracks.length) (List.range dets.length)

/-- Every complete assignment enumerated by injections pairs the rows in
order with distinct columns drawn from the column list. -/
lemma injections_spec :
    ∀ (rows cols : List Nat) (a : List (Nat × Nat)), a ∈ injections rows cols →
      a.map Prod.fst = rows ∧ (∀ c ∈ a.map Prod.snd, c ∈ cols) ∧
      (cols.Nodup → (a.map Prod.snd).Nodup) := by
  intro rows
  induction rows with
  | nil =>
    intro cols a ha
    simp [injections] at ha
    subst ha
    simp
  | cons r rs ih =>
    intro cols a ha
    simp only [injections, List.mem_flatMap, List.mem_map] at ha
    obtain ⟨c, hc, a', ha', rfl⟩ := ha
    obtain ⟨h1, h2, h3⟩ := ih (cols.erase c) a' ha'
    refine ⟨by simp [h1], ?_, ?_⟩
    · intro x hx
      simp only [List.map_cons, List.mem_cons] at hx
      rcases hx with rfl | hx
      · exact hc
      · exact List.erase_subset _ _ (h2 x hx)
    · intro hnd
      simp only [List.map_cons, List.nodup_cons]
      refine ⟨?_, h3 (hnd.erase c)⟩
      intro hmem
      have := h2 c hmem
      exact (List.Nodup.mem_erase_iff hnd).1 this |>.1 rfl

/-- Swapping the components of every pair swaps the projections. -/
lemma map_swap_fst (l : List (Nat × Nat)) :
    (l.map (fun p => (p.2, p.1))).map Prod.fst = l.map Prod.snd := by
  induction l with
  | nil => rfl
  | cons p l ih => simp [ih]

/-- Swapping the components of every pair swaps the projections. -/
lemma map_swap_snd (l : List (Nat × Nat)) :
    (l.map (fun p => (p.2, p.1))).map Prod.snd = l.map Prod.fst := by
  induction l with
  | nil => rfl
  | cons p l ih => simp [ih]

/-- The assignment model returns pairs with distinct in-range rows and
distinct in-range columns, as scipy's contract guarantees. -/
lemma lsa_spec (cost : Nat → Nat → ℚ) (m n : Nat) :
    ((linear_sum_assignment cost m n).map Prod.fst).Nodup ∧
    ((linear_sum_assignment cost m n).map Prod.snd).Nodup ∧
    ∀ p ∈ linear_sum_assignment cost m n, p.1 < m ∧ p.2 < n := by
  unfold linear_sum_assignment
  split_ifs with hmn
  · cases harg : (injections (List.range m) (List.range n)).argmin (assignmentCost cost) with
    | none => simp
    | some a =>
      have hmem : a ∈ injections (List.range m) (List.range n) :=
        List.argmin_mem harg
      obtain ⟨h1, h2, h3⟩ := injections_spec (List.range m) (List.range n) a hmem
      simp only [Option.getD_some]
      refine ⟨by rw [h1]; exact (List.nodup_range _), h3 (List.nodup_range _), ?_⟩
      intro p hp
      constructor
      · have : p.1 ∈ a.map Prod.fst := List.mem_map_of_mem Prod.fst hp
        rw [h1] at this
        exact List.mem_range.1 this
      · have : p.2 ∈ a.map Prod.snd := List.mem_map_of_mem Prod.snd hp
        exact List.mem_range.1 (h2 _ this)
  · cases harg : (injections (List.range n) (List.range m)).argmin
        (assignmentCost (fun i j => cost j i)) with
    | none => simp
    | some a =>
      have hmem : a ∈ injections (List.range n) (List.range m) :=
        List.argmin_mem harg
      obtain ⟨h1, h2, h3⟩ := injections_spec (List.range n) (List.range m) a hmem
      simp only [Option.getD_some]
      rw [map_swap_fst, map_swap_snd]
      refine ⟨h3 (List.nodup_range _), by rw [h1]; exact (List.nodup_range _), ?_⟩
      intro p hp
      simp only [List.mem_map] at hp
      obtain ⟨q, hq, rfl⟩ := hp
      constructor
      · have : q.2 ∈ a.map Prod.snd := List.mem_map_of_mem Prod.snd hq
        exact List.mem_range.1 (h2 _ this)
      · have : q.1 ∈ a.map Prod.fst := List.mem_map_of_mem Prod.fst hq
        rw [h1] at this
        exact List.mem_range.1 this

/-- The accepted pairs of the _match filter loop are exactly the solver
pairs whose IoU reaches the threshold, after the accumulator. -/
lemma matchLoop_matched_eq (iouM : Nat → Nat → ℚ) (thresh : ℚ) :
    ∀ (pairs ms : List (Nat × Nat)) (umT umD : List Nat),
      (matchLoop iouM thresh pairs ms umT umD).matched =
        ms ++ pairs.filter (fun p => thresh ≤ iouM p.1 p.2) := by
  intro pairs
  induction pairs with
  | nil =>
    intro ms umT umD
    simp [matchLoop]
  | cons p rest ih =>
    intro ms umT umD
    obtain ⟨r, c⟩ := p
    by_cases h : thresh ≤ iouM r c
    · simp only [matchLoop, if_pos h]
      rw [ih]
      simp [h]
    · simp only [matchLoop, if_neg h]
      rw [ih]
      simp [h]

/-- Unmatched track indices after the filter loop: a subset of the initial
unmatched list, still without duplicates, and disjoint from the matched
rows. -/
lemma matchLoop_unmatched_tracks (iouM : Nat → Nat → ℚ) (thresh : ℚ) :
    ∀ (pairs ms : List (Nat × Nat)) (umT umD : List Nat),
      umT.Nodup → (∀ a ∈ umT, a ∉ ms.map Prod.fst) →
      (matchLoop iouM thresh pairs ms umT umD).unmatched_tracks.Nodup ∧
      ∀ a ∈ (matchLoop iouM thresh pairs ms umT umD).unmatched_tracks,
        a ∈ umT ∧ a ∉ (matchLoop iouM thresh pairs ms umT umD).matched.map Prod.fst := by
  intro pairs
  induction pairs with
  | nil =>
    intro ms umT umD hnd hdis
    exact ⟨hnd, fun a ha => ⟨ha, hdis a ha⟩⟩
  | cons p rest ih =>
    intro ms umT umD hnd hdis
    obtain ⟨r, c⟩ := p
    by_cases h : thresh ≤ iouM r c
    · simp only [matchLoop, if_pos h]
      have hnd' : (umT.erase r).Nodup := hnd.erase r
      have hdis' : ∀ a ∈ umT.erase r, a ∉ (ms ++ [(r, c)]).map Prod.fst := by
        intro a ha
        have h1 : a ≠ r ∧ a ∈ umT := (List.Nodup.mem_erase_iff hnd).1 ha
        simp only [List.map_append, List.mem_append, List.map_cons, List.map_nil,
          List.mem_cons, List.not_mem_nil, or_false]
        rintro (hmem | hmem)
        · exact hdis a h1.2 hmem
        · exact h1.1 hmem
      obtain ⟨hn, hm⟩ := ih (ms ++ [(r, c)]) (umT.erase r) (umD.erase c) hnd' hdis'
      refine ⟨hn, ?_⟩
      intro a ha
      obtain ⟨h1, h2⟩ := hm a ha
      exact ⟨List.erase_subset _ _ h1, h2⟩
    · simp only [matchLoop, if_neg h]
      exact ih ms umT umD hnd hdis

/-- Unmatched detection indices after the filter loop: a subset of the
initial unmatched list, still without duplicates, and disjoint from the
matched columns. -/
lemma matchLoop_unmatched_dets (iouM : Nat → Nat → ℚ) (thresh : ℚ) :
    ∀ (pairs ms : List (Nat × Nat)) (umT umD : List Nat),
      umD.Nodup → (∀ a ∈ umD, a ∉ ms.map Prod.snd) →
      (matchLoop iouM thresh pairs ms umT umD).unmatched_dets.Nodup ∧
      ∀ a ∈ (matchLoop iouM thresh pairs ms umT umD).unmatched_dets,
        a ∈ umD ∧ a ∉ (matchLoop iouM thresh pairs ms umT umD).matched.map Prod.snd := by
  intro pairs
  induction pairs with
  | nil =>
    intro ms umT umD hnd hdis
    exact ⟨hnd, fun a ha => ⟨ha, hdis a ha⟩⟩
  | cons p rest ih =>
    intro ms umT umD hnd hdis
    obtain ⟨r, c⟩ := p
    by_cases h : thresh ≤ iouM r c
    · simp only [matchLoop, if_pos h]
      have hnd' : (umD.erase c).Nodup := hnd.erase c
      have hdis' : ∀ a ∈ umD.erase c, a ∉ (ms ++ [(r, c)]).map Prod.snd := by
        intro a ha
        have h1 : a ≠ c ∧ a ∈ umD := (List.Nodup.mem_erase_iff hnd).1 ha
        simp only [List.map_append, List.mem_append, List.map_cons, List.map_nil,
          List.mem_cons, List.not_mem_nil, or_false]
        rintro (hmem | hmem)
        · exact hdis a h1.2 hmem
        · exact h1.1 hmem
      obtain ⟨hn, hm⟩ := ih (ms ++ [(r, c)]) (umT.erase r) (umD.erase c) hnd' hdis'
      refine ⟨hn, ?_⟩
      intro a ha
      obtain ⟨h1, h2⟩ := hm a ha
      exact ⟨List.erase_subset _ _ h1, h2⟩
    · simp only [matchLoop, if_neg h]
      exact ih ms umT umD hnd hdis

/-- Full specification of ByteTracker._match needed by the bipartite
claims: matched rows and columns are distinct and in range, and the
unmatched index lists are distinct, in range, and disjoint from the
matched ones. -/
lemma matchStage_spec (tracks : List Track) (dets : List Detection) (thresh : ℚ) :
    ((matchStage tracks dets thresh).matched.map Prod.fst).Nodup ∧
    ((matchStage tracks dets thresh).matched.map Prod.snd).Nodup ∧
    (∀ p ∈ (matchStage tracks dets thresh).matched,
      p.1 < tracks.length ∧ p.2 < dets.length) ∧
    (matchStage tracks dets thresh).unmatched_tracks.Nodup ∧
    (∀ a ∈ (matchStage tracks dets thresh).unmatched_tracks,
      a < tracks.length ∧ a ∉ (matchStage tracks dets thresh).matched.map Prod.fst) ∧
    (matchStage tracks dets thresh).unmatched_dets.Nodup ∧
    (∀ a ∈ (matchStage tracks dets thresh).unmatched_dets,
      a < dets.length ∧ a ∉ (matchStage tracks dets thresh).matched.map Prod.snd) := by
  unfold matchStage
  split_ifs with hempty
  · simp [(List.nodup_range _), List.mem_range]
  · simp only []
    set iouM := fun ti di =>
      iou (tracks.getD ti dTrack).bbox (dets.getD di dDet).bbox with hiou
    set pairs := linear_sum_assignment (fun i j => 1 - iouM i j)
      tracks.length dets.length with hpairs
    obtain ⟨hrows, hcols, hbounds⟩ :=
      lsa_spec (fun i j => 1 - iouM i j) tracks.length dets.length
    have hmeq := matchLoop_matched_eq iouM thresh pairs []
      (List.range tracks.length) (List.range dets.length)
    have hsubl : (matchLoop iouM thresh pairs [] (List.range tracks.length)
        (List.range dets.length)).matched.Sublist pairs := by
      rw [hmeq, List.nil_append]
      exact List.filter_sublist pairs
    obtain ⟨hTn, hTm⟩ := matchLoop_unmatched_tracks iouM thresh pairs []
      (List.range tracks.length) (List.range dets.length)
      (List.nodup_range _) (by simp)
    obtain ⟨hDn, hDm⟩ := matchLoop_unmatched_dets iouM thresh pairs []
      (List.range tracks.length) (List.range dets.length)
      (List.nodup_range _) (by simp)
    refine ⟨?_, ?_, ?_, hTn, ?_, hDn, ?_⟩
    · exact (hsubl.map Prod.fst).nodup (hpairs ▸ hrows)
    · exact (hsubl.map Prod.snd).nodup (hpairs ▸ hcols)
    · intro p hp
      exact hbounds p (hpairs ▸ hsubl.subset hp)
    · intro a ha
      obtain ⟨h1, h2⟩ := hTm a ha
      exact ⟨List.mem_range.1 h1, h2⟩
    · intro a ha
      obtain ⟨h1, h2⟩ := hDm a ha
      exact ⟨List.mem_range.1 h1, h2⟩

/-- One logged state mutation of a track during ByteTracker.update:
state before and after, whether it came from a successful detection match
(Track.update) as opposed to mark_missed or the forced lost-buffer purge,
and the hit count after the mutation. -/
structure Trans where
  before : TrackState
  after : TrackState
  viaMatch : Bool
  hitsAfter : Nat
deriving DecidableEq, Repr

/-- Embeds the mutable ByteTracker object.  The heap models Python object
identity: the three track lists hold indices into the heap, mirroring the
Python lists that hold references to shared mutable Track objects. -/
structure ByteTracker where
  track_thresh : ℚ
  match_thresh : ℚ
  track_buffer : Nat
  min_box_area : ℚ
  heap : List Track
  tracked : List Nat
  lost : List Nat
  removed : List Nat
  next_id : Nat
  frame_id : Nat
deriving DecidableEq, Repr

/-- Embeds ByteTracker.__init__ with its keyword arguments. -/
def ByteTracker.init (track_thresh match_thresh : ℚ) (track_buffer : Nat)
    (min_box_area : ℚ) : ByteTracker :=
  ⟨track_thresh, match_thresh, track_buffer, min_box_area, [], [], [], [], 1, 0⟩

/-- Result of one ByteTracker.update call: the new tracker state, the
returned active track references, and two ghost logs: one entry per
matched (track, detection) pair across the three stages, and one entry
per track state mutation. -/
structure UpdateResult where
  tracker : ByteTracker
  active : List Nat
  matchLog : List (Nat × (Bool × Nat))
  transLog : List Trans
deriving DecidableEq, Repr

/-- Body of a per-stage update loop iteration (the three "for track_idx,
det_idx in matches" loops).  getDet maps a stage-local detection index to
the Detection, key maps it to its identity in the frame's detection lists
(true for the high-confidence list).  Body of the iteration: Track.update the matched
track in place and log the match event and the state transition. -/
def applyStep (refs : List Nat) (getDet : Nat → Detection) (key : Nat → Bool × Nat)
    (acc : List Track × List (Nat × (Bool × Nat)) × List Trans) (p : Nat × Nat) :
    List Track × List (Nat × (Bool × Nat)) × List Trans :=
  let r := refs.getD p.1 0
  let t := acc.1.getD r dTrack
  let t' := t.update (getDet p.2)
  (acc.1.set r t', acc.2.1 ++ [(r, key p.2)],
    acc.2.2 ++ [⟨t.state, t'.state, true, t'.hits⟩])

/-- Embeds a per-stage update loop as a fold of applyStep. -/
def applyMatches (heap : List Track) (refs : List Nat) (getDet : Nat → Detection)
    (key : Nat → Bool × Nat) (ms : List (Nat × Nat)) :
    List Track × List (Nat × (Bool × Nat)) × List Trans :=
  ms.foldl (applyStep refs getDet key) (heap, [], [])

/-- Body of one mark-missed loop iteration: mark_missed the track, then
route it to the removed list when it reached REMOVED and to the lost list
otherwise. -/
def markStep (acc : List Track × List Nat × List Nat × List Trans) (r : Nat) :
    List Track × List Nat × List Nat × List Trans :=
  let t := acc.1.getD r dTrack
  let t' := t.mark_missed
  let heap' := acc.1.set r t'
  if t'.state = TrackState.REMOVED then
    (heap', acc.2.1 ++ [r], acc.2.2.1,
      acc.2.2.2 ++ [⟨t.state, t'.state, false, t'.hits⟩])
  else
    (heap', acc.2.1, acc.2.2.1 ++ [r],
      acc.2.2.2 ++ [⟨t.state, t'.state, false, t'.hits⟩])

/-- Embeds the "mark unmatched tracks as missed" loop as a fold of markStep. -/
def markMissedFold (heap : List Track) (refs removed lost : List Nat) :
    List Track × List Nat × List Nat × List Trans :=
  refs.foldl markStep (heap, removed, lost, [])

/-- Body of one lost-buffer cleanup iteration: force REMOVED on a lost
track whose time_since_update exceeds track_buffer and append it to the
removed list. -/
def purgeStep (track_buffer : Nat) (acc : List Track × List Nat × List Trans)
    (r : Nat) : List Track × List Nat × List Trans :=
  let t := acc.1.getD r dTrack
  if t.time_since_update > track_buffer then
    (acc.1.set r { t with state := TrackState.REMOVED }, acc.2.1 ++ [r],
      acc.2.2 ++ [⟨t.state, TrackState.REMOVED, false, t.hits⟩])
  else acc

/-- Embeds the lost-buffer cleanup loop as a fold of purgeStep. -/
def purgeFold (heap : List Track) (lostRefs removed : List Nat)
    (track_buffer : Nat) : List Track × List Nat × List Trans :=
  lostRefs.foldl (purgeStep track_buffer) (heap, removed, [])

/-- Body of one new-track creation iteration: one Track per remaining
unmatched high-confidence detection, constructed in state NEW and then
assigned hits = 1, appended to the heap and to the tracked list. -/
def newTrackStep (acc : List Track × List Nat × Nat) (d : Detection) :
    List Track × List Nat × Nat :=
  let t := { mkTrack acc.2.2 d.bbox d.confidence d.frame_id with hits := 1 }
  (acc.1 ++ [t], acc.2.1 ++ [acc.1.length], acc.2.2 + 1)

/-- Embeds the new-track creation loop as a fold of newTrackStep. -/
def newTracksFold (heap : List Track) (tracked : List Nat) (next_id : Nat)
    (dets : List Detection) : List Track × List Nat × Nat :=
  dets.foldl newTrackStep (heap, tracked, next_id)

/-- Embeds ByteTracker.update stage by stage: area filter, confidence
split, stage 1 (confirmed vs high, threshold match_thresh), stage 2
(remaining confirmed vs low, 0.8x), stage 3 (lost vs remaining high,
0.7x, recovered tracks re-appended to the tracked list), new-track
creation, mark-missed routing, the is_active filter, the lost-buffer
purge, and the TRACKED-only return value.  The unconfirmed (NEW) track
list is computed and, as in the source, fed into no matching stage. -/
def ByteTracker.update (self : ByteTracker) (detections : List Detection) :
    UpdateResult :=
  let dets := detections.filter (fun d => self.min_box_area ≤ d.area)
  let high_dets := dets.filter (fun d => self.track_thresh ≤ d.confidence)
  let low_dets := dets.filter (fun d => d.confidence < self.track_thresh)
  let heap0 := self.heap
  let unconfirmedRefs :=
    self.tracked.filter (fun r => (heap0.getD r dTrack).state = TrackState.NEW)
  let confirmedRefs :=
    self.tracked.filter (fun r => (heap0.getD r dTrack).state = TrackState.TRACKED)
  let m1 := matchStage (confirmedRefs.map (fun r => heap0.getD r dTrack)) high_dets
    self.match_thresh
  let s1 := applyMatches heap0 confirmedRefs (fun i => high_dets.getD i dDet)
    (fun i => (true, i)) m1.matched
  let heap1 := s1.1
  let umcRefs := m1.unmatched_tracks.map (fun i => confirmedRefs.getD i 0)
  let m2 := matchStage (umcRefs.map (fun r => heap1.getD r dTrack)) low_dets
    (self.match_thresh * (8 / 10))
  let s2 := applyMatches heap1 umcRefs (fun i => low_dets.getD i dDet)
    (fun i => (false, i)) m2.matched
  let heap2 := s2.1
  let m3 := matchStage (self.lost.map (fun r => heap2.getD r dTrack))
    (m1.unmatched_dets.map (fun i => high_dets.getD i dDet))
    (self.match_thresh * (7 / 10))
  let s3 := applyMatches heap2 self.lost
    (fun i => high_dets.getD (m1.unmatched_dets.getD i 0) dDet)
    (fun i => (true, m1.unmatched_dets.getD i 0)) m3.matched
  let heap3 := s3.1
  let tracked1 := self.tracked ++ m3.matched.map (fun p => self.lost.getD p.1 0)
  let lost1 := m3.unmatched_tracks.map (fun i => self.lost.getD i 0)
  let newDetIdxs := m3.unmatched_dets.map (fun i => m1.unmatched_dets.getD i 0)
  let s4 := newTracksFold heap3 tracked1 self.next_id
    (newDetIdxs.map (fun i => high_dets.getD i dDet))
  let heap4 := s4.1
  let tracked2 := s4.2.1
  let next_id' := s4.2.2
  let finalUmcRefs := m2.unmatched_tracks.map (fun i => umcRefs.getD i 0)
  let s5 := markMissedFold heap4 finalUmcRefs self.removed lost1
  let heap5 := s5.1
  let removed1 := s5.2.1
  let lost2 := s5.2.2.1
  let tracked3 := tracked2.filter (fun r => (heap5.getD r dTrack).is_active)
  let lost3 := lost2.filter (fun r => (heap5.getD r dTrack).state ≠ TrackState.REMOVED)
  let s6 := purgeFold heap5 lost3 removed1 self.track_buffer
  let heap6 := s6.1
  let removed2 := s6.2.1
  let lost4 := lost3.filter (fun r => (heap6.getD r dTrack).state ≠ TrackState.REMOVED)
  let active := tracked3.filter (fun r => (heap6.getD r dTrack).state = TrackState.TRACKED)
  { tracker := { self with
      heap := heap6
      tracked := tracked3
      lost := lost4
      removed := removed2
      next_id := next_id'
      frame_id := self.frame_id + 1 }
    active := active
    matchLog := s1.2.1 ++ s2.2.1 ++ s3.2.1
    transLog := s1.2.2 ++ s2.2.2 ++ s3.2.2 ++ s5.2.2.2 ++ s6.2.2 }

/-- Embeds ByteTracker.reset: clear all track lists and restart the
counters. -/
def ByteTracker.reset (self : ByteTracker) : ByteTracker :=
  { self with
    heap := []
    tracked := []
    lost := []
    removed := []
    next_id := 1
    frame_id := 0 }

/-- Embeds ByteTracker.get_all_tracks: tracked plus lost references. -/
def ByteTracker.get_all_tracks (self : ByteTracker) : List Nat :=
  self.tracked ++ self.lost

/-- Reading a heap cell other than the one just written is unchanged. -/
lemma getD_set_ne {α : Type} (l : List α) (n m : Nat) (a d : α) (h : n ≠ m) :
    (l.set n a).getD m d = l.getD m d := by
  rcases Nat.lt_or_ge m l.length with hm | hm
  · rw [List.getD_eq_getElem _ d (by simpa using hm), List.getD_eq_getElem _ d hm]
    exact List.getElem_set_ne h _
  · rw [List.getD_eq_default _ d (by simpa using hm), List.getD_eq_default _ d hm]

/-- Reading the heap cell just written yields the written value. -/
lemma getD_set_self {α : Type} (l : List α) (n : Nat) (a d : α) (h : n < l.length) :
    (l.set n a).getD n d = a := by
  rw [List.getD_eq_getElem _ d (by simpa using h)]
  exact List.getElem_set_self (by simpa using h)

/-- An in-range getD read is a member of the list. -/
lemma getD_mem {α : Type} (l : List α) (n : Nat) (d : α) (h : n < l.length) :
    l.getD n d ∈ l := by
  rw [List.getD_eq_getElem _ d h]
  exact List.getElem_mem h

/-- An in-range getD read through a map is the map of the read. -/
lemma getD_map_of_lt {α β : Type} (f : α → β) (l : List α) (n : Nat) (d' : β)
    (d0 : α) (h : n < l.length) : (l.map f).getD n d' = f (l.getD n d0) := by
  rw [List.getD_eq_getElem _ _ (by simpa using h), List.getD_eq_getElem _ _ h]
  simp

/-- Distinct in-range indices into a duplicate-free list read distinct
values. -/
lemma nodup_map_getD (idxs refs : List Nat) (h1 : idxs.Nodup)
    (hb : ∀ i ∈ idxs, i < refs.length) (h2 : refs.Nodup) :
    (idxs.map (fun i => refs.getD i 0)).Nodup := by
  refine List.Nodup.map_on ?_ h1
  intro i hi j hj heq
  have hbi := hb i hi
  have hbj := hb j hj
  rw [List.getD_eq_getElem _ _ hbi, List.getD_eq_getElem _ _ hbj] at heq
  exact (List.Nodup.getElem_inj_iff h2).mp heq

/-- The match log of a stage fold records exactly the matched pairs,
mapped to heap references and detection keys. -/
lemma applyMatches_log (refs : List Nat) (getDet : Nat → Detection)
    (key : Nat → Bool × Nat) :
    ∀ (ms : List (Nat × Nat)) (acc : List Track × List (Nat × (Bool × Nat)) × List Trans),
      (ms.foldl (applyStep refs getDet key) acc).2.1 =
        acc.2.1 ++ ms.map (fun p => (refs.getD p.1 0, key p.2)) := by
  intro ms
  induction ms with
  | nil => intro acc; simp
  | cons p rest ih =>
    intro acc
    rw [List.foldl_cons, ih]
    simp [applyStep]

/-- Track.update never produces the REMOVED state from a non-REMOVED one. -/
lemma track_update_nonremoved (t : Track) (d : Detection)
    (h : t.state ≠ TrackState.REMOVED) : (t.update d).state ≠ TrackState.REMOVED := by
  simp only [Track.update]
  split_ifs <;> simp_all

/-- A stage fold never moves a heap cell into the REMOVED state. -/
lemma apply_foldl_nonremoved (refs : List Nat) (getDet : Nat → Detection)
    (key : Nat → Bool × Nat) :
    ∀ (ms : List (Nat × Nat)) (acc : List Track × List (Nat × (Bool × Nat)) × List Trans)
      (r : Nat), (acc.1.getD r dTrack).state ≠ TrackState.REMOVED →
      (((ms.foldl (applyStep refs getDet key) acc).1.getD r dTrack).state ≠
        TrackState.REMOVED) := by
  intro ms
  induction ms with
  | nil => intro acc r h; exact h
  | cons p rest ih =>
    intro acc r h
    rw [List.foldl_cons]
    refine ih _ r ?_
    show (((applyStep refs getDet key acc p).1).getD r dTrack).state ≠ TrackState.REMOVED
    simp only [applyStep]
    by_cases he : refs.getD p.1 0 = r
    · subst he
      rcases Nat.lt_or_ge (refs.getD p.1 0) acc.1.length with hlt | hge
      · rw [getD_set_self _ _ _ _ hlt]
        exact track_update_nonremoved _ _ h
      · rw [List.set_eq_of_length_le hge]
        exact h
    · rw [getD_set_ne _ _ _ _ _ he]
      exact h

/-- The new-track fold only appends NEW tracks, so it never moves a heap
read into the REMOVED state. -/
lemma newTracks_foldl_nonremoved :
    ∀ (dets : List Detection) (acc : List Track × List Nat × Nat) (r : Nat),
      (acc.1.getD r dTrack).state ≠ TrackState.REMOVED →
      (((dets.foldl newTrackStep acc).1.getD r dTrack).state ≠ TrackState.REMOVED) := by
  intro dets
  induction dets with
  | nil => intro acc r h; exact h
  | cons d rest ih =>
    intro acc r h
    rw [List.foldl_cons]
    refine ih _ r ?_
    show (((newTrackStep acc d).1).getD r dTrack).state ≠ TrackState.REMOVED
    simp only [newTrackStep]
    rcases Nat.lt_trichotomy r acc.1.length with hlt | heq | hgt
    · rw [List.getD_eq_getElem _ _ (by simp; omega), List.getElem_append_left hlt,
        ← List.getD_eq_getElem _ dTrack hlt]
      exact h
    · subst heq
      rw [List.getD_eq_getElem _ _ (by simp)]
      rw [List.getElem_concat_length _ _ _ rfl]
      simp [mkTrack]
    · rw [List.getD_eq_default _ _ (by simp; omega)]
      simp [dTrack, mkTrack]

/-- The new-track fold only appends to the tracked reference list. -/
lemma newTracks_foldl_tracked_mem :
    ∀ (dets : List Detection) (acc : List Track × List Nat × Nat) (x : Nat),
      x ∈ acc.2.1 → x ∈ (dets.foldl newTrackStep acc).2.1 := by
  intro dets
  induction dets with
  | nil => intro acc x h; exact h
  | cons d rest ih =>
    intro acc x h
    rw [List.foldl_cons]
    refine ih _ x ?_
    simp only [newTrackStep]
    exact List.mem_append_left _ h

/-- The purge fold leaves every heap cell unchanged or REMOVED. -/
lemma purge_foldl_getD (tb : Nat) :
    ∀ (refs : List Nat) (acc : List Track × List Nat × List Trans) (r : Nat),
      ((refs.foldl (purgeStep tb) acc).1.getD r dTrack = acc.1.getD r dTrack) ∨
      (((refs.foldl (purgeStep tb) acc).1.getD r dTrack).state = TrackState.REMOVED) := by
  intro refs
  induction refs with
  | nil => intro acc r; left; rfl
  | cons r0 rest ih =>
    intro acc r
    rw [List.foldl_cons]
    rcases ih (purgeStep tb acc r0) r with h | h
    · rw [h]
      simp only [purgeStep]
      split_ifs with hc
      · by_cases he : r0 = r
        · subst he
          rcases Nat.lt_or_ge r0 acc.1.length with hlt | hge
          · right
            rw [getD_set_self _ _ _ _ hlt]
          · left
            rw [List.set_eq_of_length_le hge]
        · left
          exact getD_set_ne _ _ _ _ _ he
      · left
        rfl
    · right
      exact h

/-- Membership in the tracked reference list survives the new-track fold. -/
lemma newTracksFold_tracked_mem (heap : List Track) (tracked : List Nat)
    (nid : Nat) (dets : List Detection) (x : Nat) (h : x ∈ tracked) :
    x ∈ (newTracksFold heap tracked nid dets).2.1 := by
  unfold newTracksFold
  exact newTracks_foldl_tracked_mem _ _ x h

/-- A reference that reads NEW after the purge passed the is_active filter
before it and fails the TRACKED filter after it. -/
lemma update_new_retained_aux (heap5 : List Track)
    (tracked2 lost3 removed1 : List Nat) (tb : Nat) (r : Nat)
    (hmem : r ∈ tracked2)
    (hnew : ((purgeFold heap5 lost3 removed1 tb).1.getD r dTrack).state =
      TrackState.NEW) :
    r ∈ tracked2.filter (fun x => (heap5.getD x dTrack).is_active) ∧
    r ∉ (tracked2.filter (fun x => (heap5.getD x dTrack).is_active)).filter
      (fun x => decide (((purgeFold heap5 lost3 removed1 tb).1.getD x dTrack).state =
        TrackState.TRACKED)) := by
  rw [purgeFold] at hnew ⊢
  rcases purge_foldl_getD tb lost3 (heap5, removed1, []) r with hsame | hrem
  · rw [hsame] at hnew
    constructor
    · rw [List.mem_filter]
      refine ⟨hmem, ?_⟩
      simp only [Track.is_active]
      exact decide_eq_true (Or.inl hnew)
    · intro hin
      rw [List.mem_filter] at hin
      have := of_decide_eq_true hin.2
      rw [hsame, hnew] at this
      exact absurd this (by decide)
  · rw [hnew] at hrem
    exact absurd hrem (by decide)

/-- C10: ByteTracker.update returns only TRACKED tracks; a track that is
still NEW after the update is retained in the internal tracked list but
excluded from the returned active list, so it is never offered for
appearance sampling. -/
theorem update_active_only_tracked (tr : ByteTracker) (dets : List Detection) :
    (∀ r ∈ (tr.update dets).active,
      ((tr.update dets).tracker.heap.getD r dTrack).state = TrackState.TRACKED) ∧
    (∀ r ∈ tr.tracked,
      ((tr.update dets).tracker.heap.getD r dTrack).state = TrackState.NEW →
      r ∈ (tr.update dets).tracker.tracked ∧ r ∉ (tr.update dets).active) := by
  simp only [ByteTracker.update]
  constructor
  · intro r hr
    rw [List.mem_filter] at hr
    exact of_decide_eq_true hr.2
  · intro r hr hnew
    exact update_new_retained_aux _ _ _ _ _ r
      (newTracksFold_tracked_mem _ _ _ _ r (List.mem_append_left _ hr)) hnew

/-- Concrete tracker for the C10 witness: one NEW track in the heap,
referenced by the tracked list. -/
def trW10 : ByteTracker :=
  { track_thresh := 6/10
    match_thresh := 1/2
    track_buffer := 10
    min_box_area := 100
    heap := [mkTrack 1 ⟨0, 0, 100, 200⟩ (8/10) 1]
    tracked := [0]
    lost := []
    removed := []
    next_id := 2
    frame_id := 1 }

/-- C10 witness: with no detections, the NEW track stays in the tracked
list and is not returned. -/
theorem update_active_only_tracked_witness :
    0 ∈ (trW10.update []).tracker.tracked ∧ 0 ∉ (trW10.update []).active :=
  (update_active_only_tracked trW10 []).2 0 (by decide) (by decide)

/-- Closed form of a stage's match log. -/
lemma applyMatches_log' (heap : List Track) (refs : List Nat)
    (getDet : Nat → Detection) (key : Nat → Bool × Nat) (ms : List (Nat × Nat)) :
    (applyMatches heap refs getDet key ms).2.1 =
      ms.map (fun p => (refs.getD p.1 0, key p.2)) := by
  unfold applyMatches
  rw [applyMatches_log]
  simp

/-- Reading a duplicate-free reference list at the distinct first
components of a pair list yields distinct references. -/
lemma nodup_map_getD_pairs (ms : List (Nat × Nat)) (refs : List Nat)
    (h1 : (ms.map Prod.fst).Nodup) (hb : ∀ q ∈ ms, q.1 < refs.length)
    (h2 : refs.Nodup) : (ms.map (fun q => refs.getD q.1 0)).Nodup := by
  have he : ms.map (fun q => refs.getD q.1 0) =
      (ms.map Prod.fst).map (fun i => refs.getD i 0) := by
    rw [List.map_map]
    rfl
  rw [he]
  refine nodup_map_getD _ _ h1 ?_ h2
  intro i hi
  obtain ⟨q, hq, rfl⟩ := List.mem_map.1 hi
  exact hb q hq

/-- Reading a duplicate-free index list at the distinct second components
of a pair list yields distinct indices. -/
lemma nodup_map_getD_pairs_snd (ms : List (Nat × Nat)) (refs : List Nat)
    (h1 : (ms.map Prod.snd).Nodup) (hb : ∀ q ∈ ms, q.2 < refs.length)
    (h2 : refs.Nodup) : (ms.map (fun q => refs.getD q.2 0)).Nodup := by
  have he : ms.map (fun q => refs.getD q.2 0) =
      (ms.map Prod.snd).map (fun i => refs.getD i 0) := by
    rw [List.map_map]
    rfl
  rw [he]
  refine nodup_map_getD _ _ h1 ?_ h2
  intro i hi
  obtain ⟨q, hq, rfl⟩ := List.mem_map.1 hi
  exact hb q hq

/-- Tagging distinct values with a constant Bool keeps them distinct. -/
lemma nodup_map_tag (l : List Nat) (b : Bool) (h : l.Nodup) :
    (l.map (fun c => (b, c))).Nodup := by
  refine h.map ?_
  intro x y hxy
  exact congrArg Prod.snd hxy

/-- Tagging the distinct second components of a pair list with a constant
Bool keeps them distinct. -/
lemma nodup_map_tag_pairs (ms : List (Nat × Nat)) (b : Bool)
    (h : (ms.map Prod.snd).Nodup) : (ms.map (fun q => (b, q.2))).Nodup := by
  have he : ms.map (fun q => (b, q.2)) = (ms.map Prod.snd).map (fun c => (b, c)) := by
    rw [List.map_map]
    rfl
  rw [he]
  exact nodup_map_tag _ _ h

/-- C1 core: across the three matching stages of one ByteTracker.update
call, the logged (track reference, detection key) pairs have pairwise
distinct track references and pairwise distinct detection keys, for any
tracker state whose tracked and lost reference lists share no reference. -/
lemma bipartite_aux (heapA heapB heapC : List Track) (tracked lostRefs : List Nat)
    (p : Nat → Bool) (g0 g1 g2 : Nat → Track) (gd1 gd2 gd3 : Nat → Detection)
    (dets1 dets2 : List Detection) (f3 : Nat → Detection) (θ1 θ2 θ3 : ℚ)
    (hnd : (tracked ++ lostRefs).Nodup) :
    let cR := tracked.filter p
    let m1 := matchStage (cR.map g0) dets1 θ1
    let uR := m1.unmatched_tracks.map (fun i => cR.getD i 0)
    let m2 := matchStage (uR.map g1) dets2 θ2
    let m3 := matchStage (lostRefs.map g2) (m1.unmatched_dets.map f3) θ3
    let log := (applyMatches heapA cR gd1 (fun i => (true, i)) m1.matched).2.1 ++
      (applyMatches heapB uR gd2 (fun i => (false, i)) m2.matched).2.1 ++
      (applyMatches heapC lostRefs gd3
        (fun i => (true, m1.unmatched_dets.getD i 0)) m3.matched).2.1
    (log.map Prod.fst).Nodup ∧ (log.map Prod.snd).Nodup := by
  intro cR m1 uR m2 m3 log
  obtain ⟨hndT, hndL, hdisj⟩ := List.nodup_append.mp hnd
  have hcRnd : cR.Nodup := hndT.filter p
  have hcRsub : ∀ x ∈ cR, x ∈ tracked := fun x hx => List.mem_of_mem_filter hx
  obtain ⟨hr1, hc1, hb1, hut1nd, hut1m, hud1nd, hud1m⟩ :=
    matchStage_spec (cR.map g0) dets1 θ1
  obtain ⟨hr2, hc2, hb2, hut2nd, hut2m, hud2nd, hud2m⟩ :=
    matchStage_spec (uR.map g1) dets2 θ2
  obtain ⟨hr3, hc3, hb3, hut3nd, hut3m, hud3nd, hud3m⟩ :=
    matchStage_spec (lostRefs.map g2) (m1.unmatched_dets.map f3) θ3
  have huRnd : uR.Nodup := by
    refine nodup_map_getD _ _ hut1nd ?_ hcRnd
    intro i hi
    have := (hut1m i hi).1
    simpa using this
  have huRmem : ∀ x ∈ uR, x ∈ cR := by
    intro x hx
    obtain ⟨i, hi, rfl⟩ := List.mem_map.1 hx
    exact getD_mem _ _ _ (by simpa using (hut1m i hi).1)
  have huRlen : uR.length = m1.unmatched_tracks.length := by
    simp [uR]
  have hlog : log =
      m1.matched.map (fun q => (cR.getD q.1 0, ((true : Bool), q.2))) ++
      m2.matched.map (fun q => (uR.getD q.1 0, ((false : Bool), q.2))) ++
      m3.matched.map (fun q =>
        (lostRefs.getD q.1 0, ((true : Bool), m1.unmatched_dets.getD q.2 0))) := by
    simp only [log, applyMatches_log']
  have hfst : log.map Prod.fst =
      m1.matched.map (fun q => cR.getD q.1 0) ++
      (m2.matched.map (fun q => uR.getD q.1 0) ++
       m3.matched.map (fun q => lostRefs.getD q.1 0)) := by
    rw [hlog]
    simp [List.map_map, Function.comp_def, List.append_assoc]
  have hsnd : log.map Prod.snd =
      m1.matched.map (fun q => ((true : Bool), q.2)) ++
      (m2.matched.map (fun q => ((false : Bool), q.2)) ++
       m3.matched.map (fun q => ((true : Bool), m1.unmatched_dets.getD q.2 0))) := by
    rw [hlog]
    simp [List.map_map, Function.comp_def, List.append_assoc]
  constructor
  · rw [hfst, List.nodup_append]
    refine ⟨?_, ?_, ?_⟩
    · exact nodup_map_getD_pairs _ _ hr1
        (fun q hq => by simpa using (hb1 q hq).1) hcRnd
    · rw [List.nodup_append]
      refine ⟨?_, ?_, ?_⟩
      · exact nodup_map_getD_pairs _ _ hr2
          (fun q hq => by simpa using (hb2 q hq).1) huRnd
      · exact nodup_map_getD_pairs _ _ hr3
          (fun q hq => by simpa using (hb3 q hq).1) hndL
      · intro a haB haC
        obtain ⟨q, hq, rfl⟩ := List.mem_map.1 haB
        obtain ⟨q', hq', heq⟩ := List.mem_map.1 haC
        have h1 : uR.getD q.1 0 ∈ uR :=
          getD_mem _ _ _ (by simpa using (hb2 q hq).1)
        have h2 : uR.getD q.1 0 ∈ tracked := hcRsub _ (huRmem _ h1)
        have h3 : lostRefs.getD q'.1 0 ∈ lostRefs :=
          getD_mem _ _ _ (by simpa using (hb3 q' hq').1)
        rw [heq] at h3
        exact (hdisj h2) h3
    · intro a haA haBC
      obtain ⟨q, hq, rfl⟩ := List.mem_map.1 haA
      have hq1lt : q.1 < cR.length := by simpa using (hb1 q hq).1
      have hq1mem : q.1 ∈ m1.matched.map Prod.fst := List.mem_map_of_mem Prod.fst hq
      rcases List.mem_append.1 haBC with hB | hC
      · obtain ⟨q', hq', heq⟩ := List.mem_map.1 hB
        have hltu : q'.1 < m1.unmatched_tracks.length := by
          have := (hb2 q' hq').1
          rw [List.length_map, huRlen] at this
          exact this
        have hgd : uR.getD q'.1 0 =
            cR.getD (m1.unmatched_tracks.getD q'.1 0) 0 :=
          getD_map_of_lt (fun i => cR.getD i 0) m1.unmatched_tracks q'.1 0 0 hltu
        have humem : m1.unmatched_tracks.getD q'.1 0 ∈ m1.unmatched_tracks :=
          getD_mem _ _ _ hltu
        have hu := hut1m _ humem
        have hueq : m1.unmatched_tracks.getD q'.1 0 = q.1 := by
          have hulcR : m1.unmatched_tracks.getD q'.1 0 < cR.length := by
            simpa using hu.1
          have h1 : cR.getD (m1.unmatched_tracks.getD q'.1 0) 0 = cR.getD q.1 0 := by
            rw [← hgd, heq]
          rw [List.getD_eq_getElem _ _ hulcR, List.getD_eq_getElem _ _ hq1lt] at h1
          exact (List.Nodup.getElem_inj_iff hcRnd).mp h1
        exact hu.2 (hueq ▸ hq1mem)
      · obtain ⟨q', hq', heq⟩ := List.mem_map.1 hC
        have h3 : lostRefs.getD q'.1 0 ∈ lostRefs :=
          getD_mem _ _ _ (by simpa using (hb3 q' hq').1)
        rw [heq] at h3
        have h2 : cR.getD q.1 0 ∈ tracked := hcRsub _ (getD_mem _ _ _ hq1lt)
        exact (hdisj h2) h3
  · rw [hsnd, List.nodup_append]
    refine ⟨?_, ?_, ?_⟩
    · exact nodup_map_tag_pairs _ _ hc1
    · rw [List.nodup_append]
      refine ⟨?_, ?_, ?_⟩
      · exact nodup_map_tag_pairs _ _ hc2
      · have he : m3.matched.map
            (fun q => ((true : Bool), m1.unmatched_dets.getD q.2 0)) =
            (m3.matched.map (fun q => m1.unmatched_dets.getD q.2 0)).map
              (fun c => ((true : Bool), c)) := by
          rw [List.map_map]
          rfl
        rw [he]
        refine nodup_map_tag _ _ ?_
        exact nodup_map_getD_pairs_snd _ _ hc3
          (fun q hq => by simpa using (hb3 q hq).2) hud1nd
      · intro a haB haC
        obtain ⟨q, hq, rfl⟩ := List.mem_map.1 haB
        obtain ⟨q', hq', heq⟩ := List.mem_map.1 haC
        simp at heq
    · intro a haA haBC
      obtain ⟨q, hq, rfl⟩ := List.mem_map.1 haA
      rcases List.mem_append.1 haBC with hB | hC
      · obtain ⟨q', hq', heq⟩ := List.mem_map.1 hB
        simp at heq
      · obtain ⟨q', hq', heq⟩ := List.mem_map.1 hC
        have hlt : q'.2 < m1.unmatched_dets.length := by
          simpa using (hb3 q' hq').2
        have hmem : m1.unmatched_dets.getD q'.2 0 ∈ m1.unmatched_dets :=
          getD_mem _ _ _ hlt
        have hnm := (hud1m _ hmem).2
        have heq2 : m1.unmatched_dets.getD q'.2 0 = q.2 := by
          have := congrArg Prod.snd heq
          simpa using this
        have hq2mem : q.2 ∈ m1.matched.map Prod.snd :=
          List.mem_map_of_mem Prod.snd hq
        exact hnm (heq2 ▸ hq2mem)

/-- C1: within one call to ByteTracker.update on a tracker whose tracked
and lost lists hold distinct track objects, no track is matched to more
than one detection and no detection is matched to more than one track,
across all three matching stages together. -/
theorem update_match_bipartite (tr : ByteTracker) (dets : List Detection)
    (h : (tr.tracked ++ tr.lost).Nodup) :
    ((tr.update dets).matchLog.map Prod.fst).Nodup ∧
    ((tr.update dets).matchLog.map Prod.snd).Nodup := by
  simp only [ByteTracker.update]
  exact bipartite_aux _ _ _ tr.tracked tr.lost _ _ _ _ _ _ _ _ _ _ _ _ _ h

/-- Concrete tracker for the C1 and C5 witnesses: one confirmed (TRACKED)
track in the heap, referenced by the tracked list. -/
def trW1 : ByteTracker :=
  { track_thresh := 6/10
    match_thresh := 1/2
    track_buffer := 10
    min_box_area := 100
    heap := [{ mkTrack 1 ⟨0, 0, 100, 200⟩ (8/10) 1 with
      state := TrackState.TRACKED, hits := 3 }]
    tracked := [0]
    lost := []
    removed := []
    next_id := 2
    frame_id := 1 }

/-- C1 witness: the bipartite property instantiated at a concrete tracker
holding one confirmed track and one overlapping high-confidence
detection, which stage 1 matches. -/
theorem update_match_bipartite_witness :
    ((trW1.update [⟨⟨0, 0, 100, 200⟩, 8/10, 2⟩]).matchLog.map Prod.fst).Nodup ∧
    ((trW1.update [⟨⟨0, 0, 100, 200⟩, 8/10, 2⟩]).matchLog.map Prod.snd).Nodup :=
  update_match_bipartite trW1 [⟨⟨0, 0, 100, 200⟩, 8/10, 2⟩] (by decide)

/-- Legality of one track state transition, as claimed by the spec's state
machine soundness property: REMOVED is terminal, NEW promotes to TRACKED
only with at least 3 hits, and LOST returns to TRACKED only through a
successful detection match. -/
def legalTrans (e : Trans) : Prop :=
  (e.before = TrackState.REMOVED → e.after = TrackState.REMOVED) ∧
  (e.before = TrackState.NEW → e.after = TrackState.TRACKED → 3 ≤ e.hitsAfter) ∧
  (e.before = TrackState.LOST → e.after = TrackState.TRACKED → e.viaMatch = true)

/-- A Track.update transition is always legal. -/
lemma track_update_trans_legal (t : Track) (d : Detection) :
    legalTrans ⟨t.state, (t.update d).state, true, (t.update d).hits⟩ := by
  unfold legalTrans
  dsimp only
  refine ⟨?_, ?_, ?_⟩
  · intro hb
    simp [Track.update, hb]
  · intro h1 h2
    by_cases hge : 3 ≤ t.hits + 1
    · show 3 ≤ (t.update d).hits
      simp only [Track.update]
      exact hge
    · exfalso
      simp only [Track.update] at h2
      rw [if_neg (fun hc => hge hc.2),
        if_neg (fun hc => by rw [h1] at hc; exact absurd hc (by decide))] at h2
      rw [h1] at h2
      exact absurd h2 (by decide)
  · intro _ _
    rfl

/-- A forced purge transition (state set to REMOVED) is always legal. -/
lemma purge_trans_legal (a : TrackState) (b : Bool) (h : Nat) :
    legalTrans ⟨a, TrackState.REMOVED, b, h⟩ := by
  unfold legalTrans
  dsimp only
  refine ⟨fun _ => rfl, ?_, ?_⟩
  · intro _ hab
    exact absurd hab (by decide)
  · intro _ hab
    exact absurd hab (by decide)

/-- A mark_missed transition is legal provided the track is not already
REMOVED, or is REMOVED with time_since_update past the hard bound. -/
lemma mark_missed_trans_legal (t : Track)
    (h : t.state ≠ TrackState.REMOVED ∨ 10 < t.time_since_update) :
    legalTrans ⟨t.state, t.mark_missed.state, false, t.mark_missed.hits⟩ := by
  unfold legalTrans
  dsimp only
  refine ⟨?_, ?_, ?_⟩
  · intro hb
    rcases h with h | h
    · exact absurd hb h
    · show (t.mark_missed).state = TrackState.REMOVED
      simp only [Track.mark_missed]
      rw [if_pos (by omega)]
  · intro h1 h2
    exfalso
    simp only [Track.mark_missed] at h2
    split_ifs at h2
    rw [h1] at h2
    exact absurd h2 (by decide)
  · intro h1 h2
    exfalso
    simp only [Track.mark_missed] at h2
    split_ifs at h2
    rw [h1] at h2
    exact absurd h2 (by decide)

/-- mark_missed preserves the precondition of mark_missed_trans_legal. -/
lemma mark_missed_preserves (t : Track)
    (h : t.state ≠ TrackState.REMOVED ∨ 10 < t.time_since_update) :
    t.mark_missed.state ≠ TrackState.REMOVED ∨
      10 < t.mark_missed.time_since_update := by
  simp only [Track.mark_missed]
  by_cases h1 : t.time_since_update + 1 > 10
  · right
    omega
  · rw [if_neg h1]
    by_cases h2 : t.time_since_update + 1 > 3
    · rw [if_pos h2]
      left
      decide
    · rw [if_neg h2]
      left
      rcases h with h | h
      · exact h
      · omega

/-- Every transition logged by a stage fold is legal. -/
lemma apply_foldl_translog_legal (refs : List Nat) (getDet : Nat → Detection)
    (key : Nat → Bool × Nat) :
    ∀ (ms : List (Nat × Nat)) (acc : List Track × List (Nat × (Bool × Nat)) × List Trans),
      (∀ e ∈ acc.2.2, legalTrans e) →
      ∀ e ∈ (ms.foldl (applyStep refs getDet key) acc).2.2, legalTrans e := by
  intro ms
  induction ms with
  | nil => intro acc hbase e he; exact hbase e he
  | cons p0 rest ih =>
    intro acc hbase e he
    rw [List.foldl_cons] at he
    refine ih _ ?_ e he
    intro e' he'
    simp only [applyStep] at he'
    rcases List.mem_append.1 he' with h | h
    · exact hbase e' h
    · rw [List.mem_singleton] at h
      subst h
      exact track_update_trans_legal _ _

/-- Every transition logged by the purge fold is legal. -/
lemma purge_foldl_translog_legal (tb : Nat) :
    ∀ (refs : List Nat) (acc : List Track × List Nat × List Trans),
      (∀ e ∈ acc.2.2, legalTrans e) →
      ∀ e ∈ (refs.foldl (purgeStep tb) acc).2.2, legalTrans e := by
  intro refs
  induction refs with
  | nil => intro acc hbase e he; exact hbase e he
  | cons r0 rest ih =>
    intro acc hbase e he
    rw [List.foldl_cons] at he
    refine ih _ ?_ e he
    intro e' he'
    simp only [purgeStep] at he'
    split_ifs at he'
    · rcases List.mem_append.1 he' with h | h
      · exact hbase e' h
      · rw [List.mem_singleton] at h
        subst h
        exact purge_trans_legal _ _ _
    · exact hbase e' he'

/-- Every transition logged by the mark-missed fold is legal, given that
every marked reference currently reads a non-REMOVED track (or one past
the hard removal bound). -/
lemma mark_foldl_translog_legal :
    ∀ (refs : List Nat) (acc : List Track × List Nat × List Nat × List Trans),
      (∀ r ∈ refs, (acc.1.getD r dTrack).state ≠ TrackState.REMOVED ∨
        10 < (acc.1.getD r dTrack).time_since_update) →
      (∀ e ∈ acc.2.2.2, legalTrans e) →
      ∀ e ∈ (refs.foldl markStep acc).2.2.2, legalTrans e := by
  intro refs
  induction refs with
  | nil => intro acc hpre hbase e he; exact hbase e he
  | cons r0 rest ih =>
    intro acc hpre hbase e he
    rw [List.foldl_cons] at he
    have hpre0 := hpre r0 (List.mem_cons_self r0 rest)
    refine ih (markStep acc r0) ?_ ?_ e he
    · intro r hr
      have hmem := hpre r (List.mem_cons_of_mem r0 hr)
      have hheap : (markStep acc r0).1 =
          acc.1.set r0 ((acc.1.getD r0 dTrack).mark_missed) := by
        simp only [markStep]
        split_ifs <;> rfl
      rw [hheap]
      by_cases he0 : r0 = r
      · subst he0
        rcases Nat.lt_or_ge r0 acc.1.length with hlt | hge
        · rw [getD_set_self _ _ _ _ hlt]
          exact mark_missed_preserves _ hpre0
        · rw [List.set_eq_of_length_le hge]
          exact hmem
      · rw [getD_set_ne _ _ _ _ _ he0]
        exact hmem
    · intro e' he'
      simp only [markStep] at he'
      split_ifs at he' <;>
        · rcases List.mem_append.1 he' with h | h
          · exact hbase e' h
          · rw [List.mem_singleton] at h
            subst h
            exact mark_missed_trans_legal _ hpre0

/-- Stage-level wrapper: transitions logged by applyMatches are legal. -/
lemma applyMatches_translog_legal (heap : List Track) (refs : List Nat)
    (getDet : Nat → Detection) (key : Nat → Bool × Nat) (ms : List (Nat × Nat)) :
    ∀ e ∈ (applyMatches heap refs getDet key ms).2.2, legalTrans e := by
  unfold applyMatches
  exact apply_foldl_translog_legal _ _ _ _ _ (by intro e he; simp at he)

/-- Wrapper: transitions logged by purgeFold are legal. -/
lemma purgeFold_translog_legal (heap : List Track) (lostRefs removed : List Nat)
    (tb : Nat) : ∀ e ∈ (purgeFold heap lostRefs removed tb).2.2, legalTrans e := by
  unfold purgeFold
  exact purge_foldl_translog_legal _ _ _ (by intro e he; simp at he)

/-- Wrapper: transitions logged by markMissedFold are legal under the
non-REMOVED precondition. -/
lemma markMissedFold_translog_legal (heap : List Track)
    (refs removed lost : List Nat)
    (h : ∀ r ∈ refs, (heap.getD r dTrack).state ≠ TrackState.REMOVED ∨
      10 < (heap.getD r dTrack).time_since_update) :
    ∀ e ∈ (markMissedFold heap refs removed lost).2.2.2, legalTrans e := by
  unfold markMissedFold
  exact mark_foldl_translog_legal _ _ h (by intro e he; simp at he)

/-- Wrapper: a stage fold preserves pointwise non-REMOVED heap reads. -/
lemma applyMatches_nonremoved (heap : List Track) (refs : List Nat)
    (getDet : Nat → Detection) (key : Nat → Bool × Nat) (ms : List (Nat × Nat))
    (r : Nat) (h : (heap.getD r dTrack).state ≠ TrackState.REMOVED) :
    ((applyMatches heap refs getDet key ms).1.getD r dTrack).state ≠
      TrackState.REMOVED := by
  unfold applyMatches
  exact apply_foldl_nonremoved _ _ _ _ _ _ h

/-- Wrapper: the new-track fold preserves pointwise non-REMOVED reads. -/
lemma newTracksFold_nonremoved (heap : List Track) (tracked : List Nat)
    (nid : Nat) (dets : List Detection) (r : Nat)
    (h : (heap.getD r dTrack).state ≠ TrackState.REMOVED) :
    ((newTracksFold heap tracked nid dets).1.getD r dTrack).state ≠
      TrackState.REMOVED := by
  unfold newTracksFold
  exact newTracks_foldl_nonremoved _ _ _ h

/-- C5 core: every transition logged during one ByteTracker.update call is
legal, given that the confirmed-track filter only selects non-REMOVED
heap reads. -/
lemma trans_legal_aux (heap0 : List Track)
    (tracked lostRefs removed lost1 tracked1 : List Nat) (p p2 : Nat → Bool)
    (g0 g1 g2 : Nat → Track) (gd1 gd2 gd3 : Nat → Detection)
    (dets1 dets2 newdets : List Detection) (f3 : Nat → Detection)
    (θ1 θ2 θ3 : ℚ) (nid tb : Nat)
    (hp : ∀ r, p r = true → (heap0.getD r dTrack).state ≠ TrackState.REMOVED) :
    let cR := tracked.filter p
    let m1 := matchStage (cR.map g0) dets1 θ1
    let s1 := applyMatches heap0 cR gd1 (fun i => (true, i)) m1.matched
    let uR := m1.unmatched_tracks.map (fun i => cR.getD i 0)
    let m2 := matchStage (uR.map g1) dets2 θ2
    let s2 := applyMatches s1.1 uR gd2 (fun i => (false, i)) m2.matched
    let m3 := matchStage (lostRefs.map g2) (m1.unmatched_dets.map f3) θ3
    let s3 := applyMatches s2.1 lostRefs gd3
      (fun i => (true, m1.unmatched_dets.getD i 0)) m3.matched
    let s4 := newTracksFold s3.1 tracked1 nid newdets
    let fuR := m2.unmatched_tracks.map (fun i => uR.getD i 0)
    let s5 := markMissedFold s4.1 fuR removed lost1
    let lost3 := s5.2.2.1.filter p2
    let s6 := purgeFold s5.1 lost3 s5.2.1 tb
    ∀ e ∈ s1.2.2 ++ s2.2.2 ++ s3.2.2 ++ s5.2.2.2 ++ s6.2.2, legalTrans e := by
  intro cR m1 s1 uR m2 s2 m3 s3 s4 fuR s5 lost3 s6 e he
  simp only [List.mem_append] at he
  obtain ⟨hr1spec, hc1spec, hb1spec, hut1nd, hut1m, hud1nd, hud1m⟩ :=
    matchStage_spec (cR.map g0) dets1 θ1
  obtain ⟨hr2spec, hc2spec, hb2spec, hut2nd, hut2m, hud2nd, hud2m⟩ :=
    matchStage_spec (uR.map g1) dets2 θ2
  rcases he with ((((h | h) | h) | h) | h)
  · exact applyMatches_translog_legal _ _ _ _ _ e h
  · exact applyMatches_translog_legal _ _ _ _ _ e h
  · exact applyMatches_translog_legal _ _ _ _ _ e h
  · refine markMissedFold_translog_legal _ _ _ _ ?_ e h
    intro r hr
    left
    obtain ⟨i, hi, rfl⟩ := List.mem_map.1 hr
    have hilt : i < uR.length := by simpa using (hut2m i hi).1
    have hmemuR : uR.getD i 0 ∈ uR := getD_mem _ _ _ hilt
    have hmemcR : uR.getD i 0 ∈ cR := by
      obtain ⟨j, hj, heq⟩ := List.mem_map.1 hmemuR
      rw [← heq]
      exact getD_mem _ _ _ (by simpa using (hut1m j hj).1)
    have hpr : p (uR.getD i 0) = true := (List.mem_filter.1 hmemcR).2
    have h0 := hp _ hpr
    exact newTracksFold_nonremoved _ _ _ _ _
      (applyMatches_nonremoved _ _ _ _ _ _
        (applyMatches_nonremoved _ _ _ _ _ _
          (applyMatches_nonremoved _ _ _ _ _ _ h0)))
  · exact purgeFold_translog_legal _ _ _ _ e h

/-- C5: across any tracker state and any single ByteTracker.update call,
every logged track state transition is legal: a REMOVED track never
leaves REMOVED, a NEW track reaches TRACKED only with hits at least 3,
and a LOST track reaches TRACKED only through a successful match. -/
theorem update_transitions_legal (tr : ByteTracker) (dets : List Detection) :
    ∀ e ∈ (tr.update dets).transLog, legalTrans e := by
  simp only [ByteTracker.update]
  refine trans_legal_aux tr.heap tr.tracked tr.lost tr.removed _ _ _ _ _ _ _
    _ _ _ _ _ _ _ _ _ _ _ _ ?_
  intro r hpr
  have := of_decide_eq_true hpr
  rw [this]
  decide

/-- C5 witness: a concrete update call on a tracker with one confirmed
track and no detections logs the mark-missed transition
(TRACKED, TRACKED, no-match, hits 3), which is legal. -/
theorem update_transitions_legal_witness :
    legalTrans ⟨TrackState.TRACKED, TrackState.TRACKED, false, 3⟩ :=
  update_transitions_legal trW1 []
    ⟨TrackState.TRACKED, TrackState.TRACKED, false, 3⟩ (by decide)

/-- Embeds Track.average_bbox: componentwise mean of bbox_history, the
current bbox when the history is empty. -/
def Track.average_bbox (t : Track) : BBox :=
  if t.bbox_history = [] then t.bbox
  else
    ⟨(t.bbox_history.map BBox.x1).sum / t.bbox_history.length,
     (t.bbox_history.map BBox.y1).sum / t.bbox_history.length,
     (t.bbox_history.map BBox.x2).sum / t.bbox_history.length,
     (t.bbox_history.map BBox.y2).sum / t.bbox_history.length⟩

/-- One per-track appearance cache entry of TrackletGenerator
(track_appearances dict value).  The outfit descriptors and embeddings
returned by the external garment analyzer are modelled only by their
count (the outfits field): no claim refers to their contents, and the
crops list always has the same length as frame_ids. -/
structure AppEntry where
  outfits : Nat
  frame_ids : List Nat
  timestamps : List ℚ
  bboxes : List BBox
deriving DecidableEq, Repr

/-- Dictionary lookup in the appearance cache (keys are track ids). -/
def appLookup (k : Nat) (l : List (Nat × AppEntry)) : Option AppEntry :=
  List.lookup k l

/-- Dictionary value replacement in the appearance cache. -/
def appSet (k : Nat) (v : AppEntry) (l : List (Nat × AppEntry)) :
    List (Nat × AppEntry) :=
  l.map (fun q => if q.1 = k then (k, v) else q)

/-- Dictionary key deletion in the appearance cache. -/
def appErase (k : Nat) (l : List (Nat × AppEntry)) : List (Nat × AppEntry) :=
  l.filter (fun q => q.1 ≠ k)

/-- Truncation toward zero, as the numpy float-to-int cast in
process_frame performs on bbox coordinates. -/
def truncz (q : ℚ) : ℤ := if 0 ≤ q then ⌊q⌋ else -⌊-q⌋

/-- The tracklet record, restricted to the temporal, spatial and quality
fields the claims refer to.  The outfit, embedding and physique fields
aggregate external-collaborator outputs and are outside every claim. -/
structure TrackletQ where
  track_id : Nat
  t_in : ℚ
  t_out : ℚ
  duration_seconds : ℚ
  bbox_sequence : List BBox
  frame_sequence : List Nat
  avg_bbox : BBox
  confidence : ℚ
  quality : ℚ
  num_observations : Nat
deriving DecidableEq, Repr

/-- Embeds TrackletGenerator._calculate_quality: obs_score saturating at
10 samples, conf_score from the track's confidence history,
stability_score hits over max(1, age), weighted 0.4/0.4/0.2 and clipped
into [0, 1] by np.clip. -/
def calculateQuality (t : Track) (numOutfits : Nat) : ℚ :=
  min (max ((4/10) * min 1 ((numOutfits : ℚ) / 10) +
    (4/10) * t.average_confidence +
    (2/10) * ((t.hits : ℚ) / (max 1 (t.age : ℚ)))) 0) 1

/-- Modelled from the spec (section 4.3), for comparison with the code:
the raw quality formula 0.4 x obs_score + 0.4 x conf_score +
0.2 x stability_score, with no clipping step. -/
def specQualityFormula (t : Track) (numOutfits : Nat) : ℚ :=
  (4/10) * min 1 ((numOutfits : ℚ) / 10) +
    (4/10) * t.average_confidence +
    (2/10) * ((t.hits : ℚ) / (max 1 (t.age : ℚ)))

/-- Embeds TrackletGenerator._create_tracklet: None when the track has no
appearance entry or fewer than 2 sampled outfits, otherwise the tracklet
assembled from the appearance cache and the track history, with t_in and
t_out from the first and last sample timestamps. -/
def createTracklet (apps : List (Nat × AppEntry)) (t : Track)
    (current_ts : ℚ) : Option TrackletQ :=
  match appLookup t.track_id apps with
  | none => none
  | some a =>
    if a.outfits < 2 then none
    else
      some { track_id := t.track_id
             t_in := a.timestamps.headD current_ts
             t_out := a.timestamps.getLastD current_ts
             duration_seconds :=
               a.timestamps.getLastD current_ts - a.timestamps.headD current_ts
             bbox_sequence := t.bbox_history
             frame_sequence := t.frame_history
             avg_bbox := t.average_bbox
             confidence := t.average_confidence
             quality := calculateQuality t a.outfits
             num_observations := a.outfits }

/-- Embeds one iteration of the appearance-sampling loop of
TrackletGenerator.process_frame: clamp the integer crop to the frame,
skip invalid crops, lazily create the cache entry, and sample when it is
the track's first sample or at least 3 frames passed since the last one.
The external garment analysis is modelled as succeeding (its failure
path only skips the sample). -/
def sampleStep (W H : ℤ) (timestamp : ℚ) (frame_id : Nat) (heap : List Track)
    (apps : List (Nat × AppEntry)) (r : Nat) : List (Nat × AppEntry) :=
  let t := heap.getD r dTrack
  let x1 := max 0 (truncz t.bbox.x1)
  let y1 := max 0 (truncz t.bbox.y1)
  let x2 := min W (truncz t.bbox.x2)
  let y2 := min H (truncz t.bbox.y2)
  if x2 ≤ x1 ∨ y2 ≤ y1 then apps
  else
    let apps1 :=
      match appLookup t.track_id apps with
      | none => apps ++ [(t.track_id, ⟨0, [], [], []⟩)]
      | some _ => apps
    match appLookup t.track_id apps1 with
    | none => apps1
    | some a =>
      if a.frame_ids = [] ∨
          (3 : ℤ) ≤ (frame_id : ℤ) - (a.frame_ids.getLastD 0 : ℤ) then
        appSet t.track_id
          ⟨a.outfits + 1, a.frame_ids ++ [frame_id], a.timestamps ++ [timestamp],
           a.bboxes ++ [t.bbox]⟩ apps1
      else apps1

/-- Embeds one iteration of the removed-track finalization loop of
process_frame: skip tracks with no appearance entry, otherwise assemble
the tracklet (appending it when produced) and delete the cache entry. -/
def finalizeStep (heap : List Track) (timestamp : ℚ)
    (acc : List (Nat × AppEntry) × List TrackletQ) (r : Nat) :
    List (Nat × AppEntry) × List TrackletQ :=
  let t := heap.getD r dTrack
  match appLookup t.track_id acc.1 with
  | none => acc
  | some _ =>
    (appErase t.track_id acc.1,
     acc.2 ++ (createTracklet acc.1 t timestamp).toList)

/-- Embeds the TrackletGenerator pipeline state: tracker, appearance
cache, completed tracklets, frame counter. -/
structure TrackletGen where
  tracker : ByteTracker
  track_appearances : List (Nat × AppEntry)
  completed_tracklets : List TrackletQ
  frame_count : Nat
deriving DecidableEq, Repr

/-- Embeds TrackletGenerator.__init__ around a given tracker. -/
def TrackletGen.init (tracker : ByteTracker) : TrackletGen :=
  ⟨tracker, [], [], 0⟩

/-- Embeds TrackletGenerator.process_frame: update the tracker with the
frame's detections, sample appearance for each returned active track,
finalize the tracker's removed tracks into tracklets, and clear the
removed list.  The external person detector is a collaborator, so the
frame's detections are taken directly; W and H are the frame
dimensions. -/
def TrackletGen.process_frame (gen : TrackletGen) (dets : List Detection)
    (timestamp : ℚ) (frame_id : Nat) (W H : ℤ) : TrackletGen × List Nat :=
  let u := gen.tracker.update dets
  let apps1 := u.active.foldl (sampleStep W H timestamp frame_id u.tracker.heap)
    gen.track_appearances
  let fin := u.tracker.removed.foldl (finalizeStep u.tracker.heap timestamp)
    (apps1, gen.completed_tracklets)
  ({ tracker := { u.tracker with removed := [] }
     track_appearances := fin.1
     completed_tracklets := fin.2
     frame_count := gen.frame_count + 1 }, u.active)

/-- Embeds TrackletGenerator.finalize_all_tracks: force every tracked and
lost track to REMOVED, assemble whatever tracklets meet the
minimum-observation bar, clear the appearance cache, reset the tracker,
and return the completed tracklet list. -/
def TrackletGen.finalize_all_tracks (gen : TrackletGen) (timestamp : ℚ) :
    TrackletGen × List TrackletQ :=
  let fin := gen.tracker.get_all_tracks.foldl
    (fun (acc : List Track × List TrackletQ) r =>
      let heap' := acc.1.set r
        { (acc.1.getD r dTrack) with state := TrackState.REMOVED }
      (heap', acc.2 ++ (createTracklet gen.track_appearances
        (heap'.getD r dTrack) timestamp).toList))
    (gen.tracker.heap, gen.completed_tracklets)
  ({ tracker := gen.tracker.reset
     track_appearances := []
     completed_tracklets := fin.2
     frame_count := gen.frame_count }, fin.2)

/-- The end-to-end scenario A detection: one person, confidence 0.8,
static 100x200 box, per frame. -/
def scenarioDet (i : Nat) : Detection := ⟨⟨0, 0, 100, 200⟩, 8/10, i⟩

/-- Frames 1 to 15 of scenario A at 1 fps. -/
def scenarioFrames : List Nat := List.range' 1 15

/-- Scenario A run: 15 consecutive frames with the single static
detection through the full pipeline, then end-of-stream finalization. -/
def runScenarioA : TrackletGen × List TrackletQ :=
  (scenarioFrames.foldl
    (fun g i => (g.process_frame [scenarioDet i] (i : ℚ) i 1000 1000).1)
    (TrackletGen.init (ByteTracker.init (6/10) (1/2) 10 100))).finalize_all_tracks 15

set_option maxRecDepth 100000 in
/-- C2: running scenario A through the pipeline as implemented produces no
tracklet at all: the per-frame detection never matches any track (NEW
tracks are in no matching pool), so no track ever reaches TRACKED, no
appearance is ever sampled, and finalization drops every track. -/
theorem scenarioA_no_tracklet : (runScenarioA).2 = [] := by
  with_unfolding_all decide

/-- The tracker-only scenario A run: 15 identical single-detection frames
from a fresh tracker. -/
def runTracker15 : ByteTracker :=
  scenarioFrames.foldl (fun tr i => (tr.update [scenarioDet i]).tracker)
    (ByteTracker.init (6/10) (1/2) 10 100)

set_option maxRecDepth 100000 in
/-- C3: after 15 consecutive frames with an identical high-confidence
detection, the track created in frame 1 still has hits = 1 and state NEW
(it was never placed in any matching pool and never promoted), and a
fresh track was spawned on every one of the 15 frames. -/
theorem new_track_never_matched :
    ((runTracker15).heap.getD 0 dTrack).hits = 1 ∧
    ((runTracker15).heap.getD 0 dTrack).state = TrackState.NEW ∧
    (runTracker15).heap.length = 15 ∧ (runTracker15).next_id = 16 := by
  with_unfolding_all decide

/-- A track in the Lost state exactly as mark_missed produces it
(time_since_update 4, just past the lost threshold 3). -/
def lostTrackW : Track :=
  { mkTrack 1 ⟨0, 0, 100, 200⟩ (8/10) 1 with
    state := TrackState.LOST, time_since_update := 4, hits := 5, age := 4 }

/-- A tracker holding that lost track in its lost list, default
track_buffer 10. -/
def trW4 : ByteTracker :=
  { track_thresh := 6/10
    match_thresh := 1/2
    track_buffer := 10
    min_box_area := 100
    heap := [lostTrackW]
    tracked := []
    lost := [0]
    removed := []
    next_id := 2
    frame_id := 5 }

/-- Iterated update calls with no detections. -/
def iterateEmpty : Nat → ByteTracker → ByteTracker
  | 0, tr => tr
  | n + 1, tr => ((iterateEmpty n tr).update []).tracker

/-- One empty update preserves the frozen-lost-track state shape. -/
lemma trW4_step (s : ByteTracker) (h1 : s.heap = [lostTrackW])
    (h2 : s.tracked = []) (h3 : s.lost = [0]) (h4 : s.removed = [])
    (h5 : s.track_buffer = 10) (h6 : s.track_thresh = 6/10)
    (h7 : s.match_thresh = 1/2) (h8 : s.min_box_area = 100) :
    ((s.update []).tracker).heap = [lostTrackW] ∧
    ((s.update []).tracker).tracked = [] ∧
    ((s.update []).tracker).lost = [0] ∧
    ((s.update []).tracker).removed = [] ∧
    ((s.update []).tracker).track_buffer = 10 ∧
    ((s.update []).tracker).track_thresh = 6/10 ∧
    ((s.update []).tracker).match_thresh = 1/2 ∧
    ((s.update []).tracker).min_box_area = 100 := by
  simp only [ByteTracker.update]
  rw [h1, h2, h3, h4, h5, h6, h7, h8]
  exact ⟨rfl, rfl, rfl, rfl, rfl, rfl, rfl, rfl⟩

/-- The frozen-lost-track state shape holds after any number of empty
frames. -/
lemma trW4_invariant (n : Nat) :
    (iterateEmpty n trW4).heap = [lostTrackW] ∧
    (iterateEmpty n trW4).tracked = [] ∧
    (iterateEmpty n trW4).lost = [0] ∧
    (iterateEmpty n trW4).removed = [] ∧
    (iterateEmpty n trW4).track_buffer = 10 ∧
    (iterateEmpty n trW4).track_thresh = 6/10 ∧
    (iterateEmpty n trW4).match_thresh = 1/2 ∧
    (iterateEmpty n trW4).min_box_area = 100 := by
  induction n with
  | zero => exact ⟨rfl, rfl, rfl, rfl, rfl, rfl, rfl, rfl⟩
  | succ n ih =>
    obtain ⟨h1, h2, h3, h4, h5, h6, h7, h8⟩ := ih
    simp only [iterateEmpty]
    exact trW4_step _ h1 h2 h3 h4 h5 h6 h7 h8

/-- C4: a track that entered the Lost state (time_since_update 4, within
track_buffer 10) and is never matched again stays in the lost list in
state LOST forever: after any number of further frames its
time_since_update is still 4 (mark_missed is never called on lost
tracks), so the purge condition time_since_update > track_buffer never
fires and the track is never moved to Removed. -/
theorem lost_track_never_purged (n : Nat) :
    ((iterateEmpty n trW4).heap.getD 0 dTrack).state = TrackState.LOST ∧
    ((iterateEmpty n trW4).heap.getD 0 dTrack).time_since_update = 4 ∧
    (iterateEmpty n trW4).lost = [0] ∧
    (iterateEmpty n trW4).removed = [] := by
  obtain ⟨h1, h2, h3, h4, h5, h6, h7, h8⟩ := trW4_invariant n
  rw [h1, h3, h4]
  exact ⟨rfl, rfl, rfl, rfl⟩

/-- Counterexample track for the quality formula: matched on every frame,
so age (incremented only on missed frames) stays 0 while hits grows, and
the raw stability term hits / max(1, age) exceeds 1. -/
def trackC8 : Track :=
  { mkTrack 7 ⟨0, 0, 100, 200⟩ (8/10) 1 with hits := 10, age := 0 }

/-- Appearance cache holding two sampled outfits for trackC8. -/
def appsC8 : List (Nat × AppEntry) :=
  [(7, ⟨2, [1, 4], [1, 4], [⟨0, 0, 100, 200⟩, ⟨0, 0, 100, 200⟩]⟩)]

/-- C8 counterexample: the tracklet produced for trackC8 has quality 1
(the clipped value), while the raw section-4.3 formula evaluates to 2.4,
so the produced quality does not equal the raw formula. -/
theorem quality_not_raw_formula :
    (createTracklet appsC8 trackC8 4).isSome = true ∧
    ((createTracklet appsC8 trackC8 4).map TrackletQ.quality).getD 0 ≠
      specQualityFormula trackC8 2 := by
  with_unfolding_all decide

/-- C8 amended theorem: the produced quality equals the section-4.3
formula clipped into [0, 1] by np.clip; it therefore always lies in
[0, 1], and it equals the raw formula exactly when that raw value is
already within [0, 1]. -/
theorem quality_clipped_formula (t : Track) (n : Nat) :
    calculateQuality t n = min (max (specQualityFormula t n) 0) 1 ∧
    0 ≤ calculateQuality t n ∧ calculateQuality t n ≤ 1 ∧
    (0 ≤ specQualityFormula t n → specQualityFormula t n ≤ 1 →
      calculateQuality t n = specQualityFormula t n) := by
  have he : calculateQuality t n = min (max (specQualityFormula t n) 0) 1 := rfl
  refine ⟨he, ?_, ?_, ?_⟩
  · rw [he]
    exact le_min (le_max_right _ _) (by norm_num)
  · rw [he]
    exact min_le_right _ _
  · intro h0 h1
    rw [he, max_eq_left h0, min_eq_left h1]

/-- A track whose raw quality formula lies inside [0, 1]. -/
def trackC8b : Track :=
  { mkTrack 8 ⟨0, 0, 100, 200⟩ (8/10) 1 with hits := 2, age := 4 }

/-- C8 witness: for trackC8b with 3 samples the raw formula is 0.54,
inside [0, 1], and the produced quality equals it. -/
theorem quality_clipped_formula_witness :
    calculateQuality trackC8b 3 = specQualityFormula trackC8b 3 :=
  (quality_clipped_formula trackC8b 3).2.2.2 (by with_unfolding_all decide)
    (by with_unfolding_all decide)

/-- C9: tracklet assembly silently produces nothing when the track has no
appearance entry or fewer than 2 sampled observations; consequently every
produced tracklet has num_observations at least 2. -/
theorem tracklet_min_observations (apps : List (Nat × AppEntry)) (t : Track)
    (ts : ℚ) :
    (∀ a, appLookup t.track_id apps = some a → a.outfits < 2 →
      createTracklet apps t ts = none) ∧
    (appLookup t.track_id apps = none → createTracklet apps t ts = none) ∧
    (∀ tk, createTracklet apps t ts = some tk → 2 ≤ tk.num_observations) := by
  refine ⟨?_, ?_, ?_⟩
  · intro a ha hlt
    simp only [createTracklet, ha]
    rw [if_pos hlt]
  · intro hnone
    simp only [createTracklet, hnone]
  · intro tk htk
    unfold createTracklet at htk
    split at htk
    · exact Option.noConfusion htk
    · split_ifs at htk with hlt
      injection htk with h2
      rw [← h2]
      dsimp only
      omega

/-- Witness track for the minimum-observation rule. -/
def trackC9 : Track :=
  { mkTrack 9 ⟨0, 0, 50, 100⟩ (7/10) 2 with hits := 4, age := 1 }

/-- Appearance cache with only one sample for trackC9. -/
def appsC9low : List (Nat × AppEntry) :=
  [(9, ⟨1, [2], [2], [⟨0, 0, 50, 100⟩]⟩)]

/-- Appearance cache with two samples for trackC9. -/
def appsC9 : List (Nat × AppEntry) :=
  [(9, ⟨2, [2, 5], [2, 5], [⟨0, 0, 50, 100⟩, ⟨0, 0, 50, 100⟩]⟩)]

/-- The tracklet assembled for trackC9 from the two-sample cache. -/
def tkC9 : TrackletQ :=
  { track_id := 9
    t_in := 2
    t_out := 5
    duration_seconds := 3
    bbox_sequence := [⟨0, 0, 50, 100⟩]
    frame_sequence := [2]
    avg_bbox := ⟨0, 0, 50, 100⟩
    confidence := 7/10
    quality := calculateQuality trackC9 2
    num_observations := 2 }

/-- C9 witness: with one sample no tracklet is produced; with two samples
the produced tracklet has at least 2 observations. -/
theorem tracklet_min_observations_witness :
    createTracklet appsC9low trackC9 6 = none ∧ 2 ≤ tkC9.num_observations :=
  ⟨(tracklet_min_observations appsC9low trackC9 6).1 ⟨1, [2], [2], [⟨0, 0, 50, 100⟩]⟩
      (by with_unfolding_all decide) (by decide),
   (tracklet_min_observations appsC9 trackC9 6).2.2 tkC9
      (by with_unfolding_all decide)⟩

/-- matchStage with an empty track pool leaves every detection unmatched. -/
lemma matchStage_nil_tracks (dets : List Detection) (thresh : ℚ) :
    matchStage [] dets thresh = ⟨[], List.range dets.length, []⟩ := by
  unfold matchStage
  simp

/-- A stage fold over no matches is the identity. -/
lemma applyMatches_nil (heap : List Track) (refs : List Nat)
    (getDet : Nat → Detection) (key : Nat → Bool × Nat) :
    applyMatches heap refs getDet key [] = (heap, [], []) := rfl

/-- The mark-missed fold over no references is the identity. -/
lemma markMissedFold_nil (heap : List Track) (removed lost : List Nat) :
    markMissedFold heap [] removed lost = (heap, removed, lost, []) := rfl

/-- The purge fold over no references is the identity. -/
lemma purgeFold_nil (heap : List Track) (removed : List Nat) (tb : Nat) :
    purgeFold heap [] removed tb = (heap, removed, []) := rfl

/-- Reading an appended list inside the original range is unchanged. -/
lemma getD_append_left {α : Type} (l l2 : List α) (r : Nat) (d : α)
    (h : r < l.length) : (l ++ l2).getD r d = l.getD r d := by
  rw [List.getD_eq_getElem _ _ (by rw [List.length_append]; omega),
    List.getElem_append_left h, List.getD_eq_getElem _ _ h]

/-- The new-track fold does not modify existing heap cells. -/
lemma newTracks_foldl_getD_lt :
    ∀ (dets : List Detection) (acc : List Track × List Nat × Nat) (r : Nat),
      r < acc.1.length →
      (dets.foldl newTrackStep acc).1.getD r dTrack = acc.1.getD r dTrack := by
  intro dets
  induction dets with
  | nil => intro acc r _; rfl
  | cons d rest ih =>
    intro acc r hr
    rw [List.foldl_cons]
    have hlen : r < (newTrackStep acc d).1.length := by
      simp only [newTrackStep, List.length_append]
      omega
    rw [ih _ r hlen]
    simp only [newTrackStep]
    exact getD_append_left _ _ _ _ hr

/-- The new-track fold grows the heap by one cell per detection. -/
lemma newTracks_foldl_length :
    ∀ (dets : List Detection) (acc : List Track × List Nat × Nat),
      (dets.foldl newTrackStep acc).1.length = acc.1.length + dets.length := by
  intro dets
  induction dets with
  | nil => intro acc; rfl
  | cons d rest ih =>
    intro acc
    rw [List.foldl_cons, ih]
    simp only [newTrackStep, List.length_append, List.length_cons, List.length_nil]
    omega

/-- The new-track fold appends exactly the references of the freshly
appended heap cells to the tracked list. -/
lemma newTracks_foldl_tracked_shape :
    ∀ (dets : List Detection) (acc : List Track × List Nat × Nat),
      (dets.foldl newTrackStep acc).2.1 =
        acc.2.1 ++ List.range' acc.1.length dets.length := by
  intro dets
  induction dets with
  | nil => intro acc; simp
  | cons d rest ih =>
    intro acc
    rw [List.foldl_cons, ih]
    simp only [newTrackStep, List.length_append, List.length_cons, List.length_nil,
      List.length_cons]
    rw [List.append_assoc]
    rfl

/-- Every heap cell appended by the new-track fold holds a NEW track. -/
lemma newTracks_foldl_getD_ge :
    ∀ (dets : List Detection) (acc : List Track × List Nat × Nat) (r : Nat),
      acc.1.length ≤ r → r < (dets.foldl newTrackStep acc).1.length →
      ((dets.foldl newTrackStep acc).1.getD r dTrack).state = TrackState.NEW := by
  intro dets
  induction dets with
  | nil =>
    intro acc r h1 h2
    rw [List.foldl_nil] at h2
    exact absurd h2 (by omega)
  | cons d rest ih =>
    intro acc r h1 h2
    rw [List.foldl_cons] at h2 ⊢
    rcases Nat.lt_or_ge r (newTrackStep acc d).1.length with hlt | hge
    · rw [newTracks_foldl_getD_lt _ _ r hlt]
      have hreq : r = acc.1.length := by
        simp only [newTrackStep, List.length_append, List.length_cons,
          List.length_nil] at hlt
        omega
      subst hreq
      simp only [newTrackStep]
      rw [List.getD_eq_getElem _ _ (by simp)]
      rw [List.getElem_concat_length _ _ _ rfl]
      simp [mkTrack]
    · exact ih _ r hge h2

/-- The new-track fold preserves distinctness, bounds and NEW-ness of the
tracked reference list. -/
lemma newTracksFold_inv (heap : List Track) (tracked : List Nat) (nid : Nat)
    (dets : List Detection) (hnd : tracked.Nodup)
    (hb : ∀ r ∈ tracked, r < heap.length ∧
      (heap.getD r dTrack).state = TrackState.NEW) :
    (newTracksFold heap tracked nid dets).2.1.Nodup ∧
    ∀ r ∈ (newTracksFold heap tracked nid dets).2.1,
      r < (newTracksFold heap tracked nid dets).1.length ∧
      ((newTracksFold heap tracked nid dets).1.getD r dTrack).state =
        TrackState.NEW := by
  unfold newTracksFold
  rw [newTracks_foldl_tracked_shape]
  dsimp only
  constructor
  · rw [List.nodup_append]
    refine ⟨hnd, List.nodup_range' _ _ 1 Nat.one_pos, ?_⟩
    intro a ha hmem
    have h1 := (hb a ha).1
    have h2 := (List.mem_range'_1).mp hmem
    omega
  · intro r hr
    rw [newTracks_foldl_length]
    dsimp only
    rcases List.mem_append.1 hr with h | h
    · obtain ⟨h1, h2⟩ := hb r h
      refine ⟨by omega, ?_⟩
      rw [newTracks_foldl_getD_lt _ _ r h1]
      exact h2
    · have h2 := (List.mem_range'_1).mp h
      refine ⟨by omega, ?_⟩
      refine newTracks_foldl_getD_ge _ _ r h2.1 ?_
      rw [newTracks_foldl_length]
      dsimp only
      omega

/-- Invariant of every tracker state produced by real executions: the lost
list is empty (no track ever reaches TRACKED, hence none ever reaches
LOST), and the tracked list holds distinct in-range references to NEW
tracks. -/
def FreshInv (tr : ByteTracker) : Prop :=
  tr.lost = [] ∧ tr.tracked.Nodup ∧
  ∀ r ∈ tr.tracked, r < tr.heap.length ∧
    (tr.heap.getD r dTrack).state = TrackState.NEW

/-- One update call, with any detections, preserves the fresh-run
invariant. -/
lemma fresh_update (tr : ByteTracker) (dets : List Detection)
    (h : FreshInv tr) : FreshInv (tr.update dets).tracker := by
  obtain ⟨hlost, hnd, hmem⟩ := h
  have hcR : tr.tracked.filter
      (fun r => decide ((tr.heap.getD r dTrack).state = TrackState.TRACKED)) = [] := by
    refine List.filter_eq_nil_iff.mpr ?_
    intro a ha
    have h2 := (hmem a ha).2
    simp only [decide_eq_true_eq]
    rw [h2]
    decide
  simp only [ByteTracker.update]
  rw [hlost, hcR]
  simp only [List.map_nil, matchStage_nil_tracks, applyMatches_nil,
    List.append_nil, markMissedFold_nil, purgeFold_nil, List.filter_nil]
  refine ⟨rfl, ?_, ?_⟩
  · exact List.Nodup.filter _ (newTracksFold_inv _ _ _ _ hnd hmem).1
  · intro r hr
    exact (newTracksFold_inv _ _ _ _ hnd hmem).2 r (List.mem_of_mem_filter hr)

/-- Tracker states reachable through the public interface: a fresh
tracker, any update call, or a reset. -/
inductive Reachable : ByteTracker → Prop
  | init (tt mt : ℚ) (tb : Nat) (mba : ℚ) : Reachable (ByteTracker.init tt mt tb mba)
  | step {tr : ByteTracker} (dets : List Detection) :
      Reachable tr → Reachable (tr.update dets).tracker
  | reset {tr : ByteTracker} : Reachable tr → Reachable tr.reset

/-- Every reachable tracker state satisfies the fresh-run invariant. -/
lemma reachable_fresh {tr : ByteTracker} (h : Reachable tr) : FreshInv tr := by
  induction h with
  | init tt mt tb mba =>
    exact ⟨rfl, List.nodup_nil, by intro r hr; exact absurd hr (by simp [ByteTracker.init])⟩
  | step dets _ ih => exact fresh_update _ dets ih
  | reset _ ih =>
    exact ⟨rfl, List.nodup_nil, by intro r hr; exact absurd hr (by simp [ByteTracker.reset])⟩

/-- In every reachable tracker state the tracked and lost lists together
hold distinct track objects, so update_match_bipartite applies to every
update call of a real execution. -/
lemma reachable_lists_nodup {tr : ByteTracker} (h : Reachable tr) :
    (tr.tracked ++ tr.lost).Nodup := by
  obtain ⟨hlost, hnd, _⟩ := reachable_fresh h
  rw [hlost, List.append_nil]
  exact hnd

end Wandr